import Mathlib

/-!
# HDRStaticMetadata: embedding of the analysis engine

Shallow embedding of `hdrgenerator.cpp` and `activedimensions.cpp`.

Conventions of the embedding:
* `float`/`double` arithmetic is taken exactly, in an arbitrary linearly ordered
  field `K` (the witnesses use `ℚ`);
* `pow` of the C library is a parameter of the embedding;
* C `int` values are modelled by `Int`, sums taken without overflow;
* a file that OpenImageIO cannot open is `none`, a decoded frame is `some m`;
* a failed OpenCV assertion (an exception that nothing catches) is the result `none`.

Four namespaces follow one machine effect each through the code, where a statement
depends on it:
* `Nan` repeats the transfer function, the table and the frame analyzer over
  doubles that are a number or NaN, with the C library's partial `pow`;
* `Int32` repeats the region check and the crop with `int` results wrapped to 32 bits;
* `Throwing` repeats the batch loop over a per-file analysis that can end on an
  exception;
* `Rounded` repeats the table construction with the roundings to `float`.
-/

namespace HDRStaticMetadata

/-! ## Data model -/

/-- Pixel of three unsigned 16-bit samples (`cv::Vec3w`). -/
structure Vec3w where
  val0 : Nat
  val1 : Nat
  val2 : Nat
deriving DecidableEq, Repr

/-- Decoded frame as a `cv::Mat` of type `CV_16UC3`: `px y x` is `at<Vec3w>(y, x)`. -/
structure Mat where
  rows : Nat
  cols : Nat
  px : Nat → Nat → Vec3w

/-- Rectangle of OpenCV (`cv::Rect`). -/
structure Rect where
  x : Int
  y : Int
  width : Int
  height : Int
deriving DecidableEq, Repr

/-- Submatrix operator `Mat::operator()(const Rect&)`: OpenCV asserts
`0 <= roi.x && 0 <= roi.width && roi.x + roi.width <= m.cols && 0 <= roi.y &&
0 <= roi.height && roi.y + roi.height <= m.rows`; a failed assertion is `none`. -/
def Mat.roi (m : Mat) (r : Rect) : Option Mat :=
  if 0 ≤ r.x ∧ 0 ≤ r.width ∧ r.x + r.width ≤ (m.cols : Int) ∧
      0 ≤ r.y ∧ 0 ≤ r.height ∧ r.y + r.height ≤ (m.rows : Int) then
    some ⟨r.height.toNat, r.width.toNat, fun y x => m.px (r.y.toNat + y) (r.x.toNat + x)⟩
  else
    none

/-- Result record `HDRMetaDataResult`. -/
structure HDRMetaDataResult (K : Type) where
  maxFALL : K
  maxCLL : K
deriving DecidableEq, Repr

/-- Region record `HDRActiveArea`; `x` and `width` are ignored by the analysis. -/
structure HDRActiveArea where
  x : Int
  y : Int
  width : Int
  height : Int
deriving DecidableEq, Repr

section Analysis

variable {K : Type} [LinearOrderedField K]

/-- Sentinel `CANT_OPEN_FILE`. -/
def CANT_OPEN_FILE : HDRMetaDataResult K := ⟨-1, -1⟩

/-- Sentinel `INVALID_ACTIVE_AREA`. -/
def INVALID_ACTIVE_AREA : HDRMetaDataResult K := ⟨-2, -2⟩

/-! ## PQ transform and lookup table -/

/-- Transfer function `PQ10000_f`, over the library function `pow`. -/
def PQ10000_f (pow : K → K → K) (V : K) : K :=
  pow (max (pow V (1 / 78.84375) - 0.8359375) 0 / (18.8515625 - 18.6875 * pow V (1 / 78.84375)))
    (1 / 0.1593017578)

/-- Loop bound `pixelMax = 2 << 15` of the table construction. -/
def pixelMax : Nat := 2 <<< 15

/-- Black level chosen by `useFull`. -/
def blackLevel (useFull : Bool) : K := if useFull then 0 else 4096

/-- Sample range chosen by `useFull`. -/
def sampleRange (useFull : Bool) : K := if useFull then 65535 else 60160 - 4096

/-- One iteration of the table construction loop: `*(lookupTable+i) = PQ10000_f((i - black) / range)`. -/
def lookupTableStep (pow : K → K → K) (useFull : Bool) (t : Array K) (i : Nat) : Array K :=
  t.setD i (PQ10000_f pow (((i : K) - blackLevel useFull) / sampleRange useFull))

/-- Table construction loop run for `n` iterations over the zero-filled block
`calloc(2 << 16, sizeof(float))`. -/
def lookupTableUpTo (pow : K → K → K) (useFull : Bool) (n : Nat) : Array K :=
  (List.range n).foldl (lookupTableStep pow useFull) (mkArray (2 <<< 16) 0)

/-- The lookup table of `calculateMetadataForPath`. -/
def lookupTable (pow : K → K → K) (useFull : Bool) : Array K :=
  lookupTableUpTo pow useFull pixelMax

/-- Read `*(lookupTable + v)` of a table entry. -/
def tableAt (table : Array K) (v : Nat) : K := table.getD v 0

/-! ## Frame analyzer -/

/-- Accumulators of the pixel loop: `mean`, `maxFALL`, `maxCLL`. -/
structure Acc (K : Type) where
  mean : K
  maxFALL : K
  maxCLL : K

/-- Body of the pixel loop of `calculateMetadataForPath`. -/
def pixelStep (table : Array K) (use2020 : Bool) (cvImage : Mat) (x y : Nat) (s : Acc K) : Acc K :=
  let currentPixel := cvImage.px y x
  let red := tableAt table currentPixel.val0
  let green := tableAt table currentPixel.val1
  let blue := tableAt table currentPixel.val2
  let LMAX := max (max red green) blue
  let L : K :=
    if use2020 then 0.2627 * red + 0.6780 * green + 0.0593 * blue
    else 0.228975 * red + 0.691739 * green + 0.0792869 * blue
  { mean := s.mean + L
    maxFALL := s.maxFALL + LMAX
    maxCLL := if LMAX > s.maxCLL then LMAX else s.maxCLL }

/-- Inner loop `for (int y = 0; y < yres; y++)`. -/
def columnLoop (table : Array K) (use2020 : Bool) (cvImage : Mat) (yres x : Nat) (s : Acc K) : Acc K :=
  (List.range yres).foldl (fun s y => pixelStep table use2020 cvImage x y s) s

/-- Outer loop `for (int x = 0; x < xres; x++)`. -/
def pixelLoop (table : Array K) (use2020 : Bool) (cvImage : Mat) (xres yres : Nat) (s : Acc K) : Acc K :=
  (List.range xres).foldl (fun s x => columnLoop table use2020 cvImage yres x s) s

/-- Region check and crop rectangle of `calculateMetadataForPath`: `none` when the
region is rejected with `INVALID_ACTIVE_AREA`, otherwise the rectangle handed to
`mainImage(Rect(0, area.y, xres, yres))`. The assignment `area.width = xres` for a
zero width is never read afterwards and is left out. -/
def cropRect (mainImage : Mat) (area : HDRActiveArea) : Option Rect :=
  let xres : Int := mainImage.cols
  let yres : Int := mainImage.rows
  if area.height + area.y > yres then none
  else
    let height := if area.height = 0 then yres else area.height
    let yres := height
    some ⟨0, area.y, xres, yres⟩

/-- Function `calculateMetadataForPath`, applied to the outcome of `ImageInput::open`. -/
def calculateMetadataForPath (pow : K → K → K) (input : Option Mat) (use2020 useFull : Bool)
    (area : HDRActiveArea) : Option (HDRMetaDataResult K) :=
  match input with
  | none => some CANT_OPEN_FILE
  | some mainImage =>
    match cropRect mainImage area with
    | none => some INVALID_ACTIVE_AREA
    | some r =>
      match mainImage.roi r with
      | none => none
      | some cvImage =>
        let xres : Int := r.width
        let yres : Int := r.height
        let s := pixelLoop (lookupTable pow useFull) use2020 cvImage xres.toNat yres.toNat ⟨0, 0, 0⟩
        some ⟨10000 * (s.maxFALL / ((xres * yres : Int) : K)), 10000 * s.maxCLL⟩

/-- Per-pixel peak `Lmax`: the largest of the three table values of a pixel. -/
def Lmax (table : Array K) (p : Vec3w) : K :=
  max (max (tableAt table p.val0) (tableAt table p.val1)) (tableAt table p.val2)

end Analysis

/-! ## Active-area detector (`activedimensions.cpp`) -/

/-- Samples of row `i` of a frame, every column and every channel. -/
def rowSamples (m : Mat) (i : Nat) : List Nat :=
  (List.range m.cols).foldr
    (fun x acc => (m.px i x).val0 :: (m.px i x).val1 :: (m.px i x).val2 :: acc) []

/-- Library routine `cv::minMaxLoc` without mask and locations: the smallest and the
largest element over all channels, both `0` for an empty matrix. -/
def minMaxLoc (l : List Nat) : Nat × Nat :=
  match l with
  | [] => (0, 0)
  | a :: t => (t.foldl min a, t.foldl max a)

/-- Body of the row scan of `getActiveAreaDimensionsForFilePath`; the state is
`(rowStart, rowEnd)`. -/
def rowStep (mainImage : Mat) (s : Int × Int) (i : Nat) : Int × Int :=
  let mm := minMaxLoc (rowSamples mainImage i)
  let rowEnd : Int := if s.2 = -1 ∧ s.1 ≠ -1 ∧ mm.1 = mm.2 then (i : Int) else s.2
  let rowStart : Int := if mm.1 ≠ mm.2 ∧ s.1 = -1 then (i : Int) else s.1
  (rowStart, rowEnd)

/-- Row scan `for (int i = 0; i < yres; i++)` from `rowStart = rowEnd = -1`. -/
def rowScan (mainImage : Mat) (yres : Nat) : Int × Int :=
  (List.range yres).foldl (rowStep mainImage) (-1, -1)

/-- Function `getActiveAreaDimensionsForFilePath`, applied to the outcome of
`ImageInput::open`. The colour minimum/maximum loops before the row scan only set
locals that are never read afterwards and are left out. -/
def getActiveAreaDimensionsForFilePath (input : Option Mat) : Int × Int :=
  match input with
  | none => (0, 0)
  | some mainImage =>
    let yOffset := 0
    let yres := mainImage.rows - yOffset - yOffset
    let s := rowScan mainImage yres
    if s.2 ≤ s.1 then (-1, -1) else (s.1, s.2 - s.1)

/-! ## Qt library routines used by `main` -/

/-- Library routine `ucstrcmp` behind `QString::compare`: the difference of the
first two code units that differ, otherwise the difference of the lengths. Qt
documents only the sign of the value. -/
def ucstrcmp : List Char → List Char → Int
  | [], [] => 0
  | [], b :: bs => -((b :: bs).length : Int)
  | a :: as, [] => ((a :: as).length : Int)
  | a :: as, b :: bs => if a = b then ucstrcmp as bs else (a.toNat : Int) - (b.toNat : Int)

/-- Library routine `QString::compare(s1, s2)`, case sensitive. -/
def QString_compare (s1 s2 : String) : Int := ucstrcmp s1.data s2.data

/-- Library routine `qSwap` on two positions of a container. -/
def qSwap {α : Type} (a : List α) (i j : Nat) : List α :=
  match a[i]?, a[j]? with
  | some x, some y => (a.set i y).set j x
  | _, _ => a

/-- Call `lessThan(*i, *j)` on two positions of a container. -/
def lessThanAt {α : Type} (lessThan : α → α → Bool) (a : List α) (i j : Nat) : Bool :=
  match a[i]?, a[j]? with
  | some x, some y => lessThan x y
  | _, _ => false

/-- Loop `while (low < high && lessThan(*low, *end)) ++low;` of `qSortHelper`. -/
def scanLow {α : Type} (lessThan : α → α → Bool) (a : List α) (e high : Nat) : Nat → Nat → Nat
  | 0, low => low
  | fuel + 1, low =>
    if low < high ∧ lessThanAt lessThan a low e = true then
      scanLow lessThan a e high fuel (low + 1)
    else low

/-- Loop `while (high > low && lessThan(*end, *high)) --high;` of `qSortHelper`. -/
def scanHigh {α : Type} (lessThan : α → α → Bool) (a : List α) (e low : Nat) : Nat → Nat → Nat
  | 0, high => high
  | fuel + 1, high =>
    if high > low ∧ lessThanAt lessThan a e high = true then
      scanHigh lessThan a e low fuel (high - 1)
    else high

/-- Partition loop `while (low < high) { ... }` of `qSortHelper`; returns the
container and the final `low`. -/
def partitionLoop {α : Type} (lessThan : α → α → Bool) (e : Nat) :
    Nat → List α → Nat → Nat → List α × Nat
  | 0, a, low, _ => (a, low)
  | fuel + 1, a, low, high =>
    if low < high then
      let low1 := scanLow lessThan a e high (high - low) low
      let high1 := scanHigh lessThan a e low1 (high - low1) high
      if low1 < high1 then
        partitionLoop lessThan e fuel (qSwap a low1 high1) (low1 + 1) (high1 - 1)
      else (a, low1)
    else (a, low)

/-- Library routine `qSortHelper(start, end, t, lessThan)` of Qt (quick sort on
the positions `start .. stop - 1`). -/
def qSortHelper {α : Type} (lessThan : α → α → Bool) : Nat → List α → Nat → Nat → List α
  | 0, a, _, _ => a
  | fuel + 1, a, start, stop =>
    let span := stop - start
    if span < 2 then a
    else
      let e := stop - 1
      let low := start
      let high := e - 1
      let pivot := start + span / 2
      let a := if lessThanAt lessThan a e start then qSwap a e start else a
      if span = 2 then a
      else
        let a := if lessThanAt lessThan a pivot start then qSwap a pivot start else a
        let a := if lessThanAt lessThan a e pivot then qSwap a e pivot else a
        if span = 3 then a
        else
          let a := qSwap a pivot e
          let p := partitionLoop lessThan e (high - low) a low high
          let a := p.1
          let low := if lessThanAt lessThan a p.2 e then p.2 + 1 else p.2
          let a := qSwap a e low
          let a := qSortHelper lessThan fuel a start low
          qSortHelper lessThan fuel a (low + 1) stop

/-- Library routine `qSort(begin, end, lessThan)`. -/
def qSort {α : Type} (lessThan : α → α → Bool) (a : List α) : List α :=
  qSortHelper lessThan a.length a 0 a.length

/-! ## Batch loop of `main` -/

/-- Pair `HDRFileResultPair` of a file path and its result; also one line of the
result stream. -/
abbrev HDRFileResultPair (R : Type) := String × R

/-- Comparator `sortHDRUserDataFilePath`. -/
def sortHDRUserDataFilePath {R : Type} (v1 v2 : HDRFileResultPair R) : Bool :=
  let result := QString_compare v1.1 v2.1
  if result = 1 then false else true

/-- How a run of `main` ends: result lines written and `return 0`, an early
`return -1`, or a loop still running when the fuel is spent. -/
inductive Run (α : Type) where
  | finished (lines : α)
  | exited
  | outOfFuel
deriving DecidableEq, Repr

/-- Sequential loop `for (int i = lo; i < foundTiffFiles.size(); i++)`: one result
line per file, in list order. `analyze` stands for `calculateMetadataForPath` at the batch's
colour space, range and region. -/
def sequentialLoop {R : Type} (analyze : String → R) (foundTiffFiles : List String) (lo : Nat) :
    List (HDRFileResultPair R) :=
  (foundTiffFiles.drop lo).map (fun nextTiffFile => (nextTiffFile, analyze nextTiffFile))

/-- One dispatched group: the files `i .. i + numberOfThreads - 1`, mapped by
`QtConcurrent::blockingMapped` (results in sequence order), then `qSort`. -/
def groupResults {R : Type} (analyze : String → R) (foundTiffFiles : List String)
    (numberOfThreads i : Int) : List (HDRFileResultPair R) :=
  let userDataList := (List.range numberOfThreads.toNat).map
    (fun (y : Nat) => foundTiffFiles.getD (i + (y : Int)).toNat "")
  let results := userDataList.map (fun filePath => (filePath, analyze filePath))
  qSort sortHDRUserDataFilePath results

/-- Group loop `for (int i = 0; i < maxNormal; i += numberOfThreads)`; `none` when
the loop is still running after `fuel` iterations. -/
def groupLoop {R : Type} (analyze : String → R) (foundTiffFiles : List String)
    (numberOfThreads maxNormal : Int) : Nat → Int → Option (List (HDRFileResultPair R))
  | 0, i => if i < maxNormal then none else some []
  | fuel + 1, i =>
    if i < maxNormal then
      (groupLoop analyze foundTiffFiles numberOfThreads maxNormal fuel (i + numberOfThreads)).map
        (fun rest => groupResults analyze foundTiffFiles numberOfThreads i ++ rest)
    else some []

/-- The `else` branch of the batch loop (grouped, concurrent path). It is reached
with `numberOfThreads ≠ 0` only. -/
def groupedPath {R : Type} (analyze : String → R) (foundTiffFiles : List String)
    (numberOfThreads : Int) (fuel : Nat) : Run (List (HDRFileResultPair R)) :=
  let mod := Int.tmod (foundTiffFiles.length : Int) numberOfThreads
  let maxNormal := (foundTiffFiles.length : Int) - mod
  match groupLoop analyze foundTiffFiles numberOfThreads maxNormal fuel 0 with
  | none => Run.outOfFuel
  | some lines => Run.finished (lines ++ sequentialLoop analyze foundTiffFiles maxNormal.toNat)

/-- The batch loop of `main` (`singleThreaded` is the constant `false`). -/
def batchLoop {R : Type} (analyze : String → R) (foundTiffFiles : List String)
    (numberOfThreads : Int) (fuel : Nat) : Run (List (HDRFileResultPair R)) :=
  let singleThreaded := false
  if singleThreaded = true ∨ (foundTiffFiles.length : Int) < numberOfThreads then
    Run.finished (sequentialLoop analyze foundTiffFiles 0)
  else
    groupedPath analyze foundTiffFiles numberOfThreads fuel

/-- Thread-count check of `main` (`numberOfThreads == 0` gives `return -1`) followed
by the batch loop. -/
def threadCheckedBatch {R : Type} (analyze : String → R) (foundTiffFiles : List String)
    (numberOfThreads : Int) (fuel : Nat) : Run (List (HDRFileResultPair R)) :=
  if numberOfThreads = 0 then Run.exited
  else batchLoop analyze foundTiffFiles numberOfThreads fuel

/-- Tail of `main` from the sanity checks on: `yLength == 0` gives `return -1`, then
the thread-count check and the batch loop. -/
def mainBatch {R : Type} (analyze : String → R) (foundTiffFiles : List String)
    (yLength numberOfThreads : Int) (fuel : Nat) : Run (List (HDRFileResultPair R)) :=
  if yLength = 0 then Run.exited
  else threadCheckedBatch analyze foundTiffFiles numberOfThreads fuel

/-! ## Active-area consensus of `main` -/

/-- Tally entry `HDRActiveAreaSetMember`. -/
structure HDRActiveAreaSetMember where
  y : Int
  height : Int
  count : Int
deriving DecidableEq, Repr

/-- Library container `QMap<QString, T>`: entries kept in ascending key order. -/
abbrev QMap (T : Type) := List (String × T)

/-- Library routine `QMap::contains`. -/
def QMap.contains {T : Type} (m : QMap T) (key : String) : Bool :=
  m.any (fun e => e.1 = key)

/-- Read through `QMap::operator[]`; a missing key gives the default value. -/
def QMap.value {T : Type} (m : QMap T) (key : String) (dflt : T) : T :=
  match m.find? (fun e => e.1 = key) with
  | some e => e.2
  | none => dflt

/-- Assignment through `QMap::operator[]`: replaces the value of a present key,
otherwise inserts the entry before the first greater key. -/
def QMap.insert {T : Type} : QMap T → String → T → QMap T
  | [], key, v => [(key, v)]
  | (k, w) :: rest, key, v =>
    if k = key then (key, v) :: rest
    else if QString_compare key k < 0 then (key, v) :: (k, w) :: rest
    else (k, w) :: QMap.insert rest key v

/-- Function `getRandomNumber(Min, Max)` over a value returned by `qrand()`. -/
def getRandomNumber (qrandValue : Nat) (Min Max : Int) : Int :=
  Int.tmod (qrandValue : Int) ((Max + 1) - Min) + Min

/-- Key of a detector result: `resultString << first << "," << second`. -/
def resultKey (result : Int × Int) : String :=
  toString result.1 ++ "," ++ toString result.2

/-- One sampling iteration on the tally. -/
def tallyStep (activeAreaResultMap : QMap HDRActiveAreaSetMember) (result : Int × Int) :
    QMap HDRActiveAreaSetMember :=
  let qResultString := resultKey result
  if activeAreaResultMap.contains qResultString then
    let current := QMap.value activeAreaResultMap qResultString ⟨0, 0, 0⟩
    QMap.insert activeAreaResultMap qResultString { current with count := current.count + 1 }
  else
    QMap.insert activeAreaResultMap qResultString ⟨result.1, result.2, 1⟩

/-- Number of samples `countOfFilesToCheck`. -/
def countOfFilesToCheck (foundTiffFiles : List String) : Nat :=
  let numberOfFilesToCheck := 10
  if foundTiffFiles.length > numberOfFilesToCheck then numberOfFilesToCheck
  else foundTiffFiles.length

/-- Detector results of the sampled files; `qrand i` is the value of the `i`-th
call of `qrand()` and `fs` maps a path to the outcome of opening it. -/
def sampleResults (fs : String → Option Mat) (foundTiffFiles : List String) (qrand : Nat → Nat) :
    List (Int × Int) :=
  (List.range (countOfFilesToCheck foundTiffFiles)).map (fun i =>
    let index := getRandomNumber (qrand i) 0 ((foundTiffFiles.length : Int) - 1)
    getActiveAreaDimensionsForFilePath (fs (foundTiffFiles.getD index.toNat "")))

/-- Selection loop over the tally in map order; `uninit` is the value of the
uninitialised local `highestMember`. The state is `(highestKey, highestCount, highestMember)`. -/
def selectHighest (activeAreaResultMap : QMap HDRActiveAreaSetMember)
    (uninit : HDRActiveAreaSetMember) : String × Int × HDRActiveAreaSetMember :=
  activeAreaResultMap.foldl
    (fun h e => if e.2.count > h.2.1 then (e.1, e.2.count, e.2) else h) ("", 0, uninit)

/-- Condition under which `main` prints the "NOT ALL OF THE FILES HAVE THE SAME
ACTIVE DIMENSION AREA" warning and prompts: `activeAreaResultMap.count() > 0`. -/
def disagreementWarning (activeAreaResultMap : QMap HDRActiveAreaSetMember) : Bool :=
  decide (activeAreaResultMap.length > 0)

/-- Outcome of the consensus block that `main` carries on with. -/
structure Consensus where
  tally : QMap HDRActiveAreaSetMember
  warned : Bool
  yOffset : Int
  yLength : Int
deriving DecidableEq, Repr

/-- Consensus block of `main` (taken when neither `-y` nor `-d` is given), from
the detector results of the samples; `reply` is the line read at the prompt.
`none` is the `return -1` after the reply `N` or `n`. -/
def consensusOf (results : List (Int × Int)) (uninit : HDRActiveAreaSetMember) (reply : String) :
    Option Consensus :=
  let activeAreaResultMap := results.foldl tallyStep []
  let highest := selectHighest activeAreaResultMap uninit
  let highestMember := highest.2.2
  if disagreementWarning activeAreaResultMap = true then
    if reply = "N" ∨ reply = "n" then none
    else some ⟨activeAreaResultMap, true, highestMember.y, highestMember.height⟩
  else some ⟨activeAreaResultMap, false, highestMember.y, highestMember.height⟩

/-- Consensus block of `main` on a file list. -/
def activeAreaConsensus (fs : String → Option Mat) (foundTiffFiles : List String)
    (qrand : Nat → Nat) (uninit : HDRActiveAreaSetMember) (reply : String) : Option Consensus :=
  consensusOf (sampleResults fs foundTiffFiles qrand) uninit reply

/-! ## Notions and sample inputs used by the statements -/

/-- A row is flat when `minMaxLoc` gives `min == max` on it. -/
def flatRow (m : Mat) (i : Nat) : Prop :=
  (minMaxLoc (rowSamples m i)).1 = (minMaxLoc (rowSamples m i)).2

instance (m : Mat) (i : Nat) : Decidable (flatRow m i) := by
  unfold flatRow
  infer_instance

/-- Sample frame of five rows `[flat, flat, varied, varied, flat]`, two pixels wide. -/
def letterboxFrame : Mat :=
  ⟨5, 2, fun y x => if y = 2 ∨ y = 3 then ⟨x, 0, 0⟩ else ⟨7, 7, 7⟩⟩

/-- Sample transfer exponentiation for the witnesses: `pow b e = b * b`. -/
def squarePow (b _e : ℚ) : ℚ := b * b

/-- Sample per-file analysis for the concrete runs: one file cannot be opened, the
others give fixed metrics. -/
def sampleAnalyze (path : String) : HDRMetaDataResult ℚ :=
  if path = "missing.tif" then CANT_OPEN_FILE else ⟨100, 400⟩

/-! ## Region selection and run of `main` -/

/-- Values of `yOffset` and `yLength` as `main` obtains them: the `atoi` values of
the `-y` and `-d` options (`0` for an option that is not given), or, when neither
option is given, the fields of the consensus winner. `none` is the `return -1` of
the consensus prompt. -/
def mainRegion (yOffsetOption yLengthOption : Option Int) (fs : String → Option Mat)
    (foundTiffFiles : List String) (qrand : Nat → Nat) (uninit : HDRActiveAreaSetMember)
    (reply : String) : Option (Int × Int) :=
  let yOffset : Int := match yOffsetOption with
    | some v => v
    | none => 0
  let yLength : Int := match yLengthOption with
    | some v => v
    | none => 0
  if yOffsetOption = none ∧ yLengthOption = none then
    match activeAreaConsensus fs foundTiffFiles qrand uninit reply with
    | none => none
    | some c => some (c.yOffset, c.yLength)
  else some (yOffset, yLength)

/-- Function `main` from the region selection to the end of the batch loop;
`analyze area path` stands for `calculateMetadataForPath` on the file at `path` with
the batch's colour space and range and the region `area = {0, yOffset, 0, yLength}`. -/
def mainRun {R : Type} (analyze : HDRActiveArea → String → R)
    (yOffsetOption yLengthOption : Option Int) (fs : String → Option Mat)
    (foundTiffFiles : List String) (qrand : Nat → Nat) (uninit : HDRActiveAreaSetMember)
    (reply : String) (numberOfThreads : Int) (fuel : Nat) : Run (List (HDRFileResultPair R)) :=
  match mainRegion yOffsetOption yLengthOption fs foundTiffFiles qrand uninit reply with
  | none => Run.exited
  | some region =>
    mainBatch (analyze ⟨0, region.1, 0, region.2⟩) foundTiffFiles region.2 numberOfThreads fuel

/-- Sample frame without letterbox bars: every one of its four rows is non-flat. -/
def fullFrame : Mat :=
  ⟨4, 2, fun y x => ⟨x, y, 0⟩⟩

/-! ## Denominator of the transfer function -/

/-- Denominator `18.8515625 - 18.6875 * pow(V, 1.0/78.84375)` of the quotient in
`PQ10000_f`. -/
def PQ10000_denominator {K : Type} [LinearOrderedField K] (pow : K → K → K) (V : K) : K :=
  18.8515625 - 18.6875 * pow V (1 / 78.84375)

/-! ## Doubles with NaN

The definitions above take `double` arithmetic exactly and `pow` as a total function.
The C library's `pow` is partial: on a negative base with a non-integer exponent it
returns NaN. The namespace `Nan` repeats the transfer function, the lookup table and
the frame analyzer over doubles that are a number (still taken exactly) or NaN, to
follow these values through the code. -/

namespace Nan

/-- A `float` or `double` value: a number, taken exactly, or NaN. -/
inductive Dbl (K : Type) where
  | num (x : K)
  | nan
deriving DecidableEq, Repr

section NanAnalysis

variable {K : Type} [LinearOrderedField K] [FloorRing K]

/-- Addition of doubles; NaN when an operand is NaN. -/
def Dbl.add : Dbl K → Dbl K → Dbl K
  | Dbl.num x, Dbl.num y => Dbl.num (x + y)
  | _, _ => Dbl.nan

/-- Subtraction of doubles; NaN when an operand is NaN. -/
def Dbl.sub : Dbl K → Dbl K → Dbl K
  | Dbl.num x, Dbl.num y => Dbl.num (x - y)
  | _, _ => Dbl.nan

/-- Multiplication of doubles; NaN when an operand is NaN. -/
def Dbl.mul : Dbl K → Dbl K → Dbl K
  | Dbl.num x, Dbl.num y => Dbl.num (x * y)
  | _, _ => Dbl.nan

/-- Division of doubles; NaN when an operand is NaN. A zero divisor (an infinity or
NaN in IEEE arithmetic) is not followed further and is taken as NaN. -/
def Dbl.div : Dbl K → Dbl K → Dbl K
  | Dbl.num x, Dbl.num y => if y = 0 then Dbl.nan else Dbl.num (x / y)
  | _, _ => Dbl.nan

instance : Add (Dbl K) := ⟨Dbl.add⟩

instance : Sub (Dbl K) := ⟨Dbl.sub⟩

instance : Mul (Dbl K) := ⟨Dbl.mul⟩

instance : Div (Dbl K) := ⟨Dbl.div⟩

/-- Comparison `a < b` of doubles: false when an operand is NaN. -/
def Dbl.lt : Dbl K → Dbl K → Bool
  | Dbl.num x, Dbl.num y => decide (x < y)
  | _, _ => false

/-- Library routine `std::max(a, b)`, that is `(a < b) ? b : a`. -/
def stdMax (a b : Dbl K) : Dbl K := if Dbl.lt a b = true then b else a

/-- Library routine `fmax`: the other operand when one operand is NaN. -/
def fmax : Dbl K → Dbl K → Dbl K
  | Dbl.num x, Dbl.num y => Dbl.num (max x y)
  | Dbl.num x, Dbl.nan => Dbl.num x
  | Dbl.nan, b => b

/-- Library routine `pow(x, y)` of C: `1` for `y = 0` or `x = 1`; NaN for a negative
base with a non-integer exponent (domain error); `0` for a zero base with a positive
exponent; `powPos x y` stands for its value on a positive base. A zero base with a
negative exponent (an infinity) is taken as NaN. -/
def pow (powPos : K → K → K) : Dbl K → Dbl K → Dbl K
  | Dbl.num x, Dbl.num y =>
    if y = 0 then Dbl.num 1
    else if x < 0 then (if y = ((⌊y⌋ : Int) : K) then Dbl.num (x ^ (⌊y⌋ : Int)) else Dbl.nan)
    else if x = 0 then (if 0 < y then Dbl.num 0 else Dbl.nan)
    else Dbl.num (powPos x y)
  | Dbl.nan, Dbl.num y => if y = 0 then Dbl.num 1 else Dbl.nan
  | Dbl.num x, Dbl.nan => if x = 1 then Dbl.num 1 else Dbl.nan
  | Dbl.nan, Dbl.nan => Dbl.nan

/-- Transfer function `PQ10000_f` over doubles with NaN. -/
def PQ10000_f (powPos : K → K → K) (V : Dbl K) : Dbl K :=
  pow powPos
    (stdMax (pow powPos V (Dbl.num (1 / 78.84375)) - Dbl.num 0.8359375) (Dbl.num 0)
      / (Dbl.num 18.8515625 - Dbl.num 18.6875 * pow powPos V (Dbl.num (1 / 78.84375))))
    (Dbl.num (1 / 0.1593017578))

/-- One iteration of the table construction loop over doubles with NaN. -/
def lookupTableStep (powPos : K → K → K) (useFull : Bool) (t : Array (Dbl K)) (i : Nat) :
    Array (Dbl K) :=
  t.setD i (PQ10000_f powPos
    ((Dbl.num (i : K) - Dbl.num (blackLevel useFull)) / Dbl.num (sampleRange useFull)))

/-- Table construction loop run for `n` iterations over the zero-filled block. -/
def lookupTableUpTo (powPos : K → K → K) (useFull : Bool) (n : Nat) : Array (Dbl K) :=
  (List.range n).foldl (lookupTableStep powPos useFull) (mkArray (2 <<< 16) (Dbl.num 0))

/-- The lookup table of `calculateMetadataForPath` over doubles with NaN. -/
def lookupTable (powPos : K → K → K) (useFull : Bool) : Array (Dbl K) :=
  lookupTableUpTo powPos useFull pixelMax

/-- Read `*(lookupTable + v)` of a table entry. -/
def tableAt (table : Array (Dbl K)) (v : Nat) : Dbl K := table.getD v (Dbl.num 0)

/-- Body of the pixel loop of `calculateMetadataForPath` over doubles with NaN. -/
def pixelStep (table : Array (Dbl K)) (use2020 : Bool) (cvImage : Mat) (x y : Nat)
    (s : Acc (Dbl K)) : Acc (Dbl K) :=
  let currentPixel := cvImage.px y x
  let red := tableAt table currentPixel.val0
  let green := tableAt table currentPixel.val1
  let blue := tableAt table currentPixel.val2
  let LMAX := fmax (fmax red green) blue
  let L : Dbl K :=
    if use2020 then Dbl.num 0.2627 * red + Dbl.num 0.6780 * green + Dbl.num 0.0593 * blue
    else Dbl.num 0.228975 * red + Dbl.num 0.691739 * green + Dbl.num 0.0792869 * blue
  { mean := s.mean + L
    maxFALL := s.maxFALL + LMAX
    maxCLL := if Dbl.lt s.maxCLL LMAX = true then LMAX else s.maxCLL }

/-- Inner loop `for (int y = 0; y < yres; y++)`. -/
def columnLoop (table : Array (Dbl K)) (use2020 : Bool) (cvImage : Mat) (yres x : Nat)
    (s : Acc (Dbl K)) : Acc (Dbl K) :=
  (List.range yres).foldl (fun s y => pixelStep table use2020 cvImage x y s) s

/-- Outer loop `for (int x = 0; x < xres; x++)`. -/
def pixelLoop (table : Array (Dbl K)) (use2020 : Bool) (cvImage : Mat) (xres yres : Nat)
    (s : Acc (Dbl K)) : Acc (Dbl K) :=
  (List.range xres).foldl (fun s x => columnLoop table use2020 cvImage yres x s) s

/-- Function `calculateMetadataForPath` over doubles with NaN, applied to the outcome
of `ImageInput::open`; `none` is a failed OpenCV assertion. -/
def calculateMetadataForPath (powPos : K → K → K) (input : Option Mat) (use2020 useFull : Bool)
    (area : HDRActiveArea) : Option (HDRMetaDataResult (Dbl K)) :=
  match input with
  | none => some ⟨Dbl.num (-1), Dbl.num (-1)⟩
  | some mainImage =>
    match cropRect mainImage area with
    | none => some ⟨Dbl.num (-2), Dbl.num (-2)⟩
    | some r =>
      match mainImage.roi r with
      | none => none
      | some cvImage =>
        let xres : Int := r.width
        let yres : Int := r.height
        let s := pixelLoop (lookupTable powPos useFull) use2020 cvImage xres.toNat yres.toNat
          ⟨Dbl.num 0, Dbl.num 0, Dbl.num 0⟩
        some ⟨Dbl.num 10000 * (s.maxFALL / Dbl.num ((xres * yres : Int) : K)),
          Dbl.num 10000 * s.maxCLL⟩

end NanAnalysis

end Nan


/-! ## 32-bit `int` arithmetic of the region check

The definitions above take sums of `int` values without overflow. `yOffset` and
`yLength` are `atoi` values, so the sum `area.height + area.y` of the region check
can pass `INT_MAX`. The namespace `Int32` repeats the region check, the crop and the
frame analyzer with every `int` result wrapped to 32 bits (two's complement). -/

namespace Int32

/-- Value of an `int` result: the exact result wrapped to 32 bits, two's complement. -/
def wrap (z : Int) : Int := (z + 2147483648) % 4294967296 - 2147483648

/-- Region check and crop rectangle of `calculateMetadataForPath` with the sum
`area.height + area.y` taken in `int`; `none` when the region is rejected with
`INVALID_ACTIVE_AREA`. -/
def cropRect (mainImage : Mat) (area : HDRActiveArea) : Option Rect :=
  let xres : Int := mainImage.cols
  let yres : Int := mainImage.rows
  if wrap (area.height + area.y) > yres then none
  else
    let height := if area.height = 0 then yres else area.height
    let yres := height
    some ⟨0, area.y, xres, yres⟩

/-- Submatrix operator `Mat::operator()(const Rect&)` with the sums of its assertion
taken in `int`. `none` is a failed assertion, or a rectangle that passes the
assertion without lying inside the frame: its rows are outside the pixel buffer and
reading them has no defined result. -/
def roi (m : Mat) (r : Rect) : Option Mat :=
  if 0 ≤ r.x ∧ 0 ≤ r.width ∧ wrap (r.x + r.width) ≤ (m.cols : Int) ∧
      0 ≤ r.y ∧ 0 ≤ r.height ∧ wrap (r.y + r.height) ≤ (m.rows : Int) then
    m.roi r
  else
    none

/-- Function `calculateMetadataForPath` with `int` results wrapped to 32 bits. -/
def calculateMetadataForPath {K : Type} [LinearOrderedField K] (pow : K → K → K)
    (input : Option Mat) (use2020 useFull : Bool) (area : HDRActiveArea) :
    Option (HDRMetaDataResult K) :=
  match input with
  | none => some CANT_OPEN_FILE
  | some mainImage =>
    match cropRect mainImage area with
    | none => some INVALID_ACTIVE_AREA
    | some r =>
      match roi mainImage r with
      | none => none
      | some cvImage =>
        let xres : Int := r.width
        let yres : Int := r.height
        let s := pixelLoop (lookupTable pow useFull) use2020 cvImage xres.toNat yres.toNat ⟨0, 0, 0⟩
        some ⟨10000 * (s.maxFALL / ((wrap (xres * yres) : Int) : K)), 10000 * s.maxCLL⟩

end Int32

/-! ## Batch loop with an analysis that can throw

The batch definitions above take the per-file analysis as a function that returns.
`calculateMetadataForPath` can also end on an OpenCV exception (the result `none`),
and nothing in `main`, in `calculateMetadataForPathConcurrently` or around
`QtConcurrent::blockingMapped` catches it: the run ends there. The namespace
`Throwing` repeats the batch loop over an analysis `String → Option R`. -/

namespace Throwing

/-- How a run of `main` ends: result lines written and `return 0`, an early
`return -1`, a loop still running when the fuel is spent, or the end of the process
on an exception that nothing catches. -/
inductive Run (α : Type) where
  | finished (lines : α)
  | exited
  | outOfFuel
  | aborted
deriving DecidableEq, Repr

/-- The files of a list analyzed in turn, each giving its `(path, result)` record;
`none` as soon as one analysis throws. -/
def analyzeEach {R : Type} (analyze : String → Option R) :
    List String → Option (List (HDRFileResultPair R))
  | [] => some []
  | filePath :: rest =>
    match analyze filePath with
    | none => none
    | some result =>
      match analyzeEach analyze rest with
      | none => none
      | some records => some ((filePath, result) :: records)

/-- Sequential loop `for (int i = lo; i < foundTiffFiles.size(); i++)`: one result
line per file, in list order; `none` when an analysis throws. -/
def sequentialLoop {R : Type} (analyze : String → Option R) (foundTiffFiles : List String)
    (lo : Nat) : Option (List (HDRFileResultPair R)) :=
  analyzeEach analyze (foundTiffFiles.drop lo)

/-- One dispatched group: the files `i .. i + numberOfThreads - 1`, mapped by
`QtConcurrent::blockingMapped` (results in sequence order), then `qSort`; `none`
when an analysis of the group throws. -/
def groupResults {R : Type} (analyze : String → Option R) (foundTiffFiles : List String)
    (numberOfThreads i : Int) : Option (List (HDRFileResultPair R)) :=
  let userDataList := (List.range numberOfThreads.toNat).map
    (fun (y : Nat) => foundTiffFiles.getD (i + (y : Int)).toNat "")
  match analyzeEach analyze userDataList with
  | none => none
  | some results => some (qSort sortHDRUserDataFilePath results)

/-- Group loop `for (int i = 0; i < maxNormal; i += numberOfThreads)`. -/
def groupLoop {R : Type} (analyze : String → Option R) (foundTiffFiles : List String)
    (numberOfThreads maxNormal : Int) : Nat → Int → Run (List (HDRFileResultPair R))
  | 0, i => if i < maxNormal then Run.outOfFuel else Run.finished []
  | fuel + 1, i =>
    if i < maxNormal then
      match groupResults analyze foundTiffFiles numberOfThreads i with
      | none => Run.aborted
      | some results =>
        match groupLoop analyze foundTiffFiles numberOfThreads maxNormal fuel
            (i + numberOfThreads) with
        | Run.finished rest => Run.finished (results ++ rest)
        | other => other
    else Run.finished []

/-- The `else` branch of the batch loop (grouped, concurrent path). -/
def groupedPath {R : Type} (analyze : String → Option R) (foundTiffFiles : List String)
    (numberOfThreads : Int) (fuel : Nat) : Run (List (HDRFileResultPair R)) :=
  let mod := Int.tmod (foundTiffFiles.length : Int) numberOfThreads
  let maxNormal := (foundTiffFiles.length : Int) - mod
  match groupLoop analyze foundTiffFiles numberOfThreads maxNormal fuel 0 with
  | Run.finished lines =>
    match sequentialLoop analyze foundTiffFiles maxNormal.toNat with
    | none => Run.aborted
    | some rest => Run.finished (lines ++ rest)
  | other => other

/-- The batch loop of `main` (`singleThreaded` is the constant `false`). -/
def batchLoop {R : Type} (analyze : String → Option R) (foundTiffFiles : List String)
    (numberOfThreads : Int) (fuel : Nat) : Run (List (HDRFileResultPair R)) :=
  let singleThreaded := false
  if singleThreaded = true ∨ (foundTiffFiles.length : Int) < numberOfThreads then
    match sequentialLoop analyze foundTiffFiles 0 with
    | none => Run.aborted
    | some lines => Run.finished lines
  else
    groupedPath analyze foundTiffFiles numberOfThreads fuel

/-- Thread-count check of `main` (`numberOfThreads == 0` gives `return -1`) followed
by the batch loop. -/
def threadCheckedBatch {R : Type} (analyze : String → Option R) (foundTiffFiles : List String)
    (numberOfThreads : Int) (fuel : Nat) : Run (List (HDRFileResultPair R)) :=
  if numberOfThreads = 0 then Run.exited
  else batchLoop analyze foundTiffFiles numberOfThreads fuel

/-- Tail of `main` from the sanity checks on: `yLength == 0` gives `return -1`, then
the thread-count check and the batch loop. -/
def mainBatch {R : Type} (analyze : String → Option R) (foundTiffFiles : List String)
    (yLength numberOfThreads : Int) (fuel : Nat) : Run (List (HDRFileResultPair R)) :=
  if yLength = 0 then Run.exited
  else threadCheckedBatch analyze foundTiffFiles numberOfThreads fuel

end Throwing

/-- Per-file analysis of the batch loop: `calculateMetadataForPath` on the file at
`path`, with the batch's colour space, range and region `{0, yOffset, 0, yLength}`;
`fs` maps a path to the outcome of opening it. -/
def analyzeFile {K : Type} [LinearOrderedField K] (pow : K → K → K) (fs : String → Option Mat)
    (use2020 useFull : Bool) (yOffset yLength : Int) (path : String) :
    Option (HDRMetaDataResult K) :=
  calculateMetadataForPath pow (fs path) use2020 useFull ⟨0, yOffset, 0, yLength⟩

/-- Sample per-file analysis that returns for every file. -/
def sampleAnalyzeReturning (path : String) : Option (HDRMetaDataResult ℚ) :=
  some (sampleAnalyze path)

/-- Sample file system: `missing.tif` cannot be opened, every other path decodes to
the frame without letterbox bars. -/
def sampleFiles (path : String) : Option Mat :=
  if path = "missing.tif" then none else some fullFrame

/-! ## Narrowing to `float`

The lookup table is a block of `float`, and its entries are computed as
`float result = PQ10000_f((float)(i - black) / range)`: the quotient is a `float`
division and the `double` value of `PQ10000_f` is narrowed to `float`. The namespace
`Rounded` repeats the table construction with these two roundings, over doubles
that are a number or NaN; the arithmetic inside `PQ10000_f` is still taken exactly. -/

section Rounding

variable {K : Type} [LinearOrderedField K] [FloorRing K]

/-- Nearest integer, ties to the even one. -/
def roundHalfEven (q : K) : Int :=
  let f : Int := ⌊q⌋
  let r : K := q - (f : K)
  if r < 1 / 2 then f
  else if 1 / 2 < r then f + 1
  else if f % 2 = 0 then f else f + 1

/-- Nearest `float` (IEEE binary32, round to nearest, ties to even) of a number: 24
significant bits, the exponent not below `-126` (subnormal numbers). -/
def toFloat32 (x : K) : K :=
  if x = 0 then 0
  else
    let e : Int := max (Int.log 2 |x|) (-126)
    let ulp : K := (2 : K) ^ (e - 23)
    let m : K := ((roundHalfEven (|x| / ulp) : Int) : K) * ulp
    if x < 0 then -m else m

end Rounding

namespace Nan

/-- Comparison `a == b` of doubles: false when an operand is NaN. -/
def Dbl.eq {K : Type} [DecidableEq K] : Dbl K → Dbl K → Bool
  | Dbl.num x, Dbl.num y => decide (x = y)
  | _, _ => false

end Nan

namespace Rounded

open Nan

section RoundedTable

variable {K : Type} [LinearOrderedField K] [FloorRing K]

/-- Result of a `float` operation, or of narrowing a `double` to `float`: the nearest
`float`; a value past the `float` range (an infinity) is not followed further and is
taken as NaN. -/
def toFloat : Dbl K → Dbl K
  | Dbl.num x => if (2 : K) ^ (128 : Nat) ≤ |toFloat32 x| then Dbl.nan else Dbl.num (toFloat32 x)
  | Dbl.nan => Dbl.nan

/-- One iteration of the table construction loop:
`float result = PQ10000_f((float)(i - black) / range); *(lookupTable+i) = result;`.
The difference `i - black` of two integers below `2^24` is exact in `float`. -/
def lookupTableStep (powPos : K → K → K) (useFull : Bool) (t : Array (Dbl K)) (i : Nat) :
    Array (Dbl K) :=
  t.setD i (toFloat (Nan.PQ10000_f powPos
    (toFloat ((Dbl.num (i : K) - Dbl.num (blackLevel useFull)) / Dbl.num (sampleRange useFull)))))

/-- Table construction loop run for `n` iterations over the zero-filled block
`calloc(2 << 16, sizeof(float))`. -/
def lookupTableUpTo (powPos : K → K → K) (useFull : Bool) (n : Nat) : Array (Dbl K) :=
  (List.range n).foldl (lookupTableStep powPos useFull) (mkArray (2 <<< 16) (Dbl.num 0))

/-- The lookup table of `calculateMetadataForPath`, a block of `float`. -/
def lookupTable (powPos : K → K → K) (useFull : Bool) : Array (Dbl K) :=
  lookupTableUpTo powPos useFull pixelMax

/-- Read `*(lookupTable + v)` of a table entry. -/
def tableAt (table : Array (Dbl K)) (v : Nat) : Dbl K := table.getD v (Dbl.num 0)

end RoundedTable

end Rounded

/-! # Theorems -/

/-! ## Frame analyzer: loop lemmas -/

section PixelLoopProofs

variable {K : Type} [LinearOrderedField K]

theorem pixelStep_maxFALL (t : Array K) (u : Bool) (img : Mat) (x y : Nat) (s : Acc K) :
    (pixelStep t u img x y s).maxFALL = s.maxFALL + Lmax t (img.px y x) := rfl

theorem pixelStep_maxCLL (t : Array K) (u : Bool) (img : Mat) (x y : Nat) (s : Acc K) :
    (pixelStep t u img x y s).maxCLL = max s.maxCLL (Lmax t (img.px y x)) := by
  simp only [pixelStep, Lmax]
  split_ifs with h
  · exact (max_eq_right (le_of_lt h)).symm
  · exact (max_eq_left (not_lt.mp h)).symm

theorem columnLoop_succ (t : Array K) (u : Bool) (img : Mat) (n x : Nat) (s : Acc K) :
    columnLoop t u img (n + 1) x s = pixelStep t u img x n (columnLoop t u img n x s) := by
  simp [columnLoop, List.range_succ, List.foldl_append]

theorem pixelLoop_succ (t : Array K) (u : Bool) (img : Mat) (k n : Nat) (s : Acc K) :
    pixelLoop t u img (k + 1) n s = columnLoop t u img n k (pixelLoop t u img k n s) := by
  simp [pixelLoop, List.range_succ, List.foldl_append]

theorem columnLoop_maxFALL (t : Array K) (u : Bool) (img : Mat) (n x : Nat) (s : Acc K) :
    (columnLoop t u img n x s).maxFALL
      = s.maxFALL + ∑ y ∈ Finset.range n, Lmax t (img.px y x) := by
  induction n with
  | zero => simp [columnLoop]
  | succ n ih => rw [columnLoop_succ, pixelStep_maxFALL, ih, Finset.sum_range_succ, add_assoc]

theorem pixelLoop_maxFALL (t : Array K) (u : Bool) (img : Mat) (k n : Nat) (s : Acc K) :
    (pixelLoop t u img k n s).maxFALL
      = s.maxFALL + ∑ x ∈ Finset.range k, ∑ y ∈ Finset.range n, Lmax t (img.px y x) := by
  induction k with
  | zero => simp [pixelLoop]
  | succ k ih => rw [pixelLoop_succ, columnLoop_maxFALL, ih, Finset.sum_range_succ, add_assoc]

theorem columnLoop_maxCLL (t : Array K) (u : Bool) (img : Mat) (n x : Nat) (s : Acc K) :
    s.maxCLL ≤ (columnLoop t u img n x s).maxCLL ∧
    (∀ y, y < n → Lmax t (img.px y x) ≤ (columnLoop t u img n x s).maxCLL) ∧
    ((columnLoop t u img n x s).maxCLL = s.maxCLL ∨
      ∃ y, y < n ∧ (columnLoop t u img n x s).maxCLL = Lmax t (img.px y x)) := by
  induction n with
  | zero => simp [columnLoop]
  | succ n ih =>
    obtain ⟨h1, h2, h3⟩ := ih
    rw [columnLoop_succ, pixelStep_maxCLL]
    refine ⟨le_trans h1 (le_max_left _ _), ?_, ?_⟩
    · intro y hy
      rcases Nat.lt_succ_iff_lt_or_eq.mp hy with hlt | rfl
      · exact le_trans (h2 y hlt) (le_max_left _ _)
      · exact le_max_right _ _
    · rcases max_cases (columnLoop t u img n x s).maxCLL (Lmax t (img.px n x)) with ⟨e, _⟩ | ⟨e, _⟩
      · rw [e]
        rcases h3 with h | ⟨y, hy, h⟩
        · exact Or.inl h
        · exact Or.inr ⟨y, Nat.lt_succ_of_lt hy, h⟩
      · rw [e]
        exact Or.inr ⟨n, Nat.lt_succ_self n, rfl⟩

theorem pixelLoop_maxCLL (t : Array K) (u : Bool) (img : Mat) (k n : Nat) (s : Acc K) :
    s.maxCLL ≤ (pixelLoop t u img k n s).maxCLL ∧
    (∀ x y, x < k → y < n → Lmax t (img.px y x) ≤ (pixelLoop t u img k n s).maxCLL) ∧
    ((pixelLoop t u img k n s).maxCLL = s.maxCLL ∨
      ∃ x y, x < k ∧ y < n ∧ (pixelLoop t u img k n s).maxCLL = Lmax t (img.px y x)) := by
  induction k with
  | zero => simp [pixelLoop]
  | succ k ih =>
    obtain ⟨h1, h2, h3⟩ := ih
    obtain ⟨c1, c2, c3⟩ := columnLoop_maxCLL t u img n k (pixelLoop t u img k n s)
    rw [pixelLoop_succ]
    refine ⟨le_trans h1 c1, ?_, ?_⟩
    · intro x y hx hy
      rcases Nat.lt_succ_iff_lt_or_eq.mp hx with hlt | rfl
      · exact le_trans (h2 x y hlt hy) c1
      · exact c2 y hy
    · rcases c3 with e | ⟨y, hy, e⟩
      · rw [e]
        rcases h3 with h | ⟨x, y, hx, hy, h⟩
        · exact Or.inl h
        · exact Or.inr ⟨x, y, Nat.lt_succ_of_lt hx, hy, h⟩
      · exact Or.inr ⟨k, y, Nat.lt_succ_self k, hy, e⟩

end PixelLoopProofs

section LookupTableProofs
variable {K : Type} [LinearOrderedField K]

theorem lookupTableUpTo_succ (pow : K → K → K) (u : Bool) (n : Nat) :
    lookupTableUpTo pow u (n + 1) = lookupTableStep pow u (lookupTableUpTo pow u n) n := by
  simp [lookupTableUpTo, List.range_succ, List.foldl_append]

theorem lookupTableUpTo_size (pow : K → K → K) (u : Bool) (n : Nat) :
    (lookupTableUpTo pow u n).size = 2 <<< 16 := by
  induction n with
  | zero => simp [lookupTableUpTo]
  | succ n ih => rw [lookupTableUpTo_succ, lookupTableStep, Array.size_setD, ih]

theorem tableAt_setD (t : Array K) (i j : Nat) (v : K) :
    tableAt (t.setD i v) j = if j = i ∧ i < t.size then v else tableAt t j := by
  unfold tableAt
  by_cases hi : i < t.size
  · by_cases hj : j = i
    · subst hj
      have h := Array.getElem?_set_eq t ⟨j, hi⟩ v
      simp only [Array.getD_eq_get?, Array.setD, hi, dite_true, and_self, if_true]
      rw [h]
      rfl
    · have hji : i ≠ j := fun h => hj h.symm
      have h := Array.getElem?_set_ne t ⟨i, hi⟩ v hji
      simp only [Array.getD_eq_get?, Array.setD, hi, dite_true, hj, false_and, if_false]
      rw [h]
  · simp [Array.setD, hi]

theorem tableAt_mkArray (n j : Nat) : tableAt (mkArray n (0 : K)) j = 0 := by
  unfold tableAt
  rw [Array.getD_eq_get?, Array.getElem?_mkArray]
  split_ifs <;> rfl

theorem tableAt_lookupTableUpTo (pow : K → K → K) (u : Bool) (n j : Nat) (hn : n ≤ 2 <<< 16) :
    tableAt (lookupTableUpTo pow u n) j =
      if j < n then PQ10000_f pow (((j : K) - blackLevel u) / sampleRange u) else 0 := by
  induction n with
  | zero => simp [lookupTableUpTo, tableAt_mkArray]
  | succ n ih =>
    have ih := ih (Nat.le_of_succ_le hn)
    rw [lookupTableUpTo_succ, lookupTableStep, tableAt_setD, lookupTableUpTo_size, ih]
    have hlt : n < 2 <<< 16 := hn
    by_cases hj : j = n
    · subst hj
      rw [if_pos ⟨rfl, hlt⟩, if_pos (Nat.lt_succ_self j)]
    · have h1 : ¬ (j = n ∧ n < 2 <<< 16) := fun h => hj h.1
      rw [if_neg h1]
      by_cases hjn : j < n
      · rw [if_pos hjn, if_pos (Nat.lt_succ_of_lt hjn)]
      · rw [if_neg hjn, if_neg (by omega)]

theorem tableAt_lookupTable (pow : K → K → K) (u : Bool) (j : Nat) :
    tableAt (lookupTable pow u) j =
      if j < pixelMax then PQ10000_f pow (((j : K) - blackLevel u) / sampleRange u) else 0 :=
  tableAt_lookupTableUpTo pow u pixelMax j (by decide)

end LookupTableProofs

section FrameAnalyzerProofs
variable {K : Type} [LinearOrderedField K]

theorem calculateMetadataForPath_of_roi (pow : K → K → K) (img cv : Mat) (u f : Bool)
    (area : HDRActiveArea) (r : Rect) (h1 : cropRect img area = some r)
    (h2 : img.roi r = some cv) :
    calculateMetadataForPath pow (some img) u f area =
      some ⟨10000 * ((pixelLoop (lookupTable pow f) u cv r.width.toNat r.height.toNat ⟨0, 0, 0⟩).maxFALL
              / ((r.width * r.height : Int) : K)),
            10000 * (pixelLoop (lookupTable pow f) u cv r.width.toNat r.height.toNat ⟨0, 0, 0⟩).maxCLL⟩ := by
  simp only [calculateMetadataForPath, h1, h2]

theorem cropRect_eq_none_iff (img : Mat) (area : HDRActiveArea) :
    cropRect img area = none ↔ area.y + area.height > (img.rows : Int) := by
  unfold cropRect
  simp only
  split_ifs with h
  · simp only [true_iff]; omega
  · simp only [false_iff]; omega

theorem cropRect_of_region (img : Mat) (area : HDRActiveArea) (hh : 0 < area.height)
    (hb : area.y + area.height ≤ (img.rows : Int)) :
    cropRect img area = some ⟨0, area.y, img.cols, area.height⟩ := by
  unfold cropRect
  simp only
  rw [if_neg (by omega), if_neg (by omega)]

theorem roi_of_region (img : Mat) (y h : Int) (hy : 0 ≤ y) (hh : 0 ≤ h)
    (hb : y + h ≤ (img.rows : Int)) :
    img.roi ⟨0, y, img.cols, h⟩ =
      some ⟨h.toNat, img.cols, fun j x => img.px (y.toNat + j) x⟩ := by
  unfold Mat.roi
  simp only
  rw [if_pos ⟨le_refl _, Int.ofNat_nonneg _, by omega, hy, hh, hb⟩]
  simp

/-- In exact arithmetic, for a decoded frame of width `w > 0` and a region with
`rowOffset ≥ 0`, `rowCount > 0` and `rowOffset + rowCount ≤ height`: when every value
of the lookup table is a non-negative number, `calculateMetadataForPath` returns
`maxFALL = 10000 * (sum of Lmax over the pixels of the region) / (w * rowCount)` and
`maxCLL = 10000 * (largest Lmax over those pixels)`. -/
theorem calculateMetadataForPath_region_metrics (pow : K → K → K) (img : Mat)
    (use2020 useFull : Bool) (area : HDRActiveArea)
    (hw : 0 < img.cols) (hy : 0 ≤ area.y) (hh : 0 < area.height)
    (hb : area.y + area.height ≤ (img.rows : Int))
    (hnn : ∀ v, 0 ≤ tableAt (lookupTable pow useFull) v) :
    ∃ r : HDRMetaDataResult K,
      calculateMetadataForPath pow (some img) use2020 useFull area = some r ∧
      r.maxFALL = 10000 * (∑ y ∈ Finset.range area.height.toNat, ∑ x ∈ Finset.range img.cols,
          Lmax (lookupTable pow useFull) (img.px (area.y.toNat + y) x))
            / ((img.cols : K) * (area.height.toNat : K)) ∧
      (∀ y x, y < area.height.toNat → x < img.cols →
          10000 * Lmax (lookupTable pow useFull) (img.px (area.y.toNat + y) x) ≤ r.maxCLL) ∧
      (∃ y x, y < area.height.toNat ∧ x < img.cols ∧
          r.maxCLL = 10000 * Lmax (lookupTable pow useFull) (img.px (area.y.toNat + y) x)) := by
  have hcrop := cropRect_of_region img area hh hb
  have hroi := roi_of_region img area.y area.height hy (le_of_lt hh) hb
  have hres := calculateMetadataForPath_of_roi pow img _ use2020 useFull area _ hcrop hroi
  simp only [Int.toNat_ofNat] at hres
  obtain ⟨p1, p2, p3⟩ := pixelLoop_maxCLL (lookupTable pow useFull) use2020
    ⟨area.height.toNat, img.cols, fun j x => img.px (area.y.toNat + j) x⟩
    img.cols area.height.toNat ⟨0, 0, 0⟩
  have hsum := pixelLoop_maxFALL (lookupTable pow useFull) use2020
    ⟨area.height.toNat, img.cols, fun j x => img.px (area.y.toNat + j) x⟩
    img.cols area.height.toNat ⟨0, 0, 0⟩
  simp only at p1 p2 p3 hsum
  have hLnn : ∀ p : Vec3w, 0 ≤ Lmax (lookupTable pow useFull) p := fun p =>
    le_trans (hnn p.val2) (le_max_right _ _)
  have hpos : 0 < area.height.toNat := by omega
  have hden : (((img.cols : Int) * area.height : Int) : K)
      = (img.cols : K) * (area.height.toNat : K) := by
    have : area.height = (area.height.toNat : Int) := (Int.toNat_of_nonneg (le_of_lt hh)).symm
    rw [Int.cast_mul, Int.cast_natCast]
    conv_lhs => rw [this]
    rw [Int.cast_natCast]
  refine ⟨_, hres, ?_, ?_, ?_⟩
  · simp only
    rw [hsum, zero_add, hden, Finset.sum_comm, mul_div_assoc]
  · intro y x hyy hx
    exact mul_le_mul_of_nonneg_left (p2 x y hx hyy) (by norm_num)
  · rcases p3 with e | ⟨x, y, hx, hyy, e⟩
    · refine ⟨0, 0, hpos, hw, ?_⟩
      have hle := p2 0 0 hw hpos
      have hge := hLnn (img.px (area.y.toNat + 0) 0)
      rw [e] at hle
      show 10000 * _ = 10000 * _
      rw [e, le_antisymm hle hge]
    · exact ⟨y, x, hyy, hx, congrArg (fun z => 10000 * z) e⟩

/-- With `int` sums taken without overflow: on a decoded frame of height `h`,
`calculateMetadataForPath` returns the `INVALID_ACTIVE_AREA` sentinel
(`maxFALL = maxCLL = -2`) exactly when `rowOffset + rowCount > h`; the region
`(100, 2000)` against height 1800 is rejected. -/
theorem calculateMetadataForPath_invalid_iff (pow : K → K → K) (img : Mat)
    (use2020 useFull : Bool) (area : HDRActiveArea) :
    (calculateMetadataForPath pow (some img) use2020 useFull area
        = some (⟨-2, -2⟩ : HDRMetaDataResult K)
      ↔ area.y + area.height > (img.rows : Int)) ∧
    (∀ (cols : Nat) (px : Nat → Nat → Vec3w) (ax aw : Int),
      calculateMetadataForPath pow (some ⟨1800, cols, px⟩) use2020 useFull ⟨ax, 100, aw, 2000⟩
        = some (⟨-2, -2⟩ : HDRMetaDataResult K)) := by
  have key : ∀ (m : Mat) (a : HDRActiveArea),
      calculateMetadataForPath pow (some m) use2020 useFull a
          = some (⟨-2, -2⟩ : HDRMetaDataResult K)
        ↔ a.y + a.height > (m.rows : Int) := by
    intro m a
    constructor
    · intro h
      by_contra hn
      cases hc : cropRect m a with
      | none => exact hn ((cropRect_eq_none_iff m a).mp hc)
      | some r =>
        cases hr : m.roi r with
        | none =>
          simp [calculateMetadataForPath, hc, hr] at h
        | some cv =>
          rw [calculateMetadataForPath_of_roi pow m cv use2020 useFull a r hc hr] at h
          have h2 := congrArg HDRMetaDataResult.maxCLL (Option.some.inj h)
          simp only at h2
          have p1 := (pixelLoop_maxCLL (lookupTable pow useFull) use2020 cv
            r.width.toNat r.height.toNat ⟨0, 0, 0⟩).1
          simp only at p1
          have : (0 : K) ≤ 10000 * (pixelLoop (lookupTable pow useFull) use2020 cv
            r.width.toNat r.height.toNat ⟨0, 0, 0⟩).maxCLL := mul_nonneg (by norm_num) p1
          rw [h2] at this
          norm_num at this
    · intro h
      have hc := (cropRect_eq_none_iff m a).mpr h
      simp [calculateMetadataForPath, hc, INVALID_ACTIVE_AREA]
  refine ⟨key img area, ?_⟩
  intro cols px ax aw
  exact (key ⟨1800, cols, px⟩ ⟨ax, 100, aw, 2000⟩).mpr (by norm_num)

end FrameAnalyzerProofs

theorem tableAt_nonneg_of_pow_nonneg {K : Type} [LinearOrderedField K] (pow : K → K → K)
    (h : ∀ a b, 0 ≤ pow a b) (u : Bool) (v : Nat) : 0 ≤ tableAt (lookupTable pow u) v := by
  rw [tableAt_lookupTable]
  split_ifs
  · exact h _ _
  · exact le_refl _

/-- C3: a region that `calculateMetadataForPath` does not reject need not lie inside
the frame. On a frame of height 100 the region `(-1, -1)` (the detector's sentinel,
which `main` passes on) and the region `(50, 0)` both pass the check
`area.height + area.y > yres`; the first is cropped with a negative row offset and
count, the second to the rows `[50, 150)`, and the OpenCV crop aborts. -/
theorem calculateMetadataForPath_crop_outside_frame {K : Type} [LinearOrderedField K]
    (pow : K → K → K) (px : Nat → Nat → Vec3w) (use2020 useFull : Bool) :
    cropRect ⟨100, 8, px⟩ ⟨0, -1, 0, -1⟩ = some ⟨0, -1, 8, -1⟩ ∧
    calculateMetadataForPath pow (some ⟨100, 8, px⟩) use2020 useFull ⟨0, -1, 0, -1⟩ = none ∧
    cropRect ⟨100, 8, px⟩ ⟨0, 50, 0, 0⟩ = some ⟨0, 50, 8, 100⟩ ∧
    calculateMetadataForPath pow (some ⟨100, 8, px⟩) use2020 useFull ⟨0, 50, 0, 0⟩ = none := by
  have c1 : cropRect ⟨100, 8, px⟩ ⟨0, -1, 0, -1⟩ = some ⟨0, -1, 8, -1⟩ := by
    simp [cropRect]
  have c2 : cropRect ⟨100, 8, px⟩ ⟨0, 50, 0, 0⟩ = some ⟨0, 50, 8, 100⟩ := by
    simp [cropRect]
  refine ⟨c1, ?_, c2, ?_⟩
  · simp [calculateMetadataForPath, c1, Mat.roi]
  · simp [calculateMetadataForPath, c2, Mat.roi]

/-! ## Active-area detector: proofs -/

theorem rowScan_succ (img : Mat) (k : Nat) :
    rowScan img (k + 1) = rowStep img (rowScan img k) k := by
  simp [rowScan, List.range_succ, List.foldl_append]

theorem rowScan_cases (img : Mat) (k : Nat) :
    (rowScan img k = (-1, -1) ∧ ∀ i, i < k → flatRow img i) ∨
    (∃ a : Nat, a < k ∧ rowScan img k = ((a : Int), -1) ∧ ¬ flatRow img a ∧
      (∀ i, i < a → flatRow img i) ∧ ∀ i, a < i → i < k → ¬ flatRow img i) ∨
    (∃ a e : Nat, a < e ∧ e < k ∧ rowScan img k = ((a : Int), (e : Int)) ∧ ¬ flatRow img a ∧
      (∀ i, i < a → flatRow img i) ∧ flatRow img e ∧ ∀ i, a < i → i < e → ¬ flatRow img i) := by
  induction k with
  | zero => left; exact ⟨rfl, fun i hi => absurd hi (Nat.not_lt_zero i)⟩
  | succ k ih =>
    rw [rowScan_succ]
    rcases ih with ⟨hs, hflat⟩ | ⟨a, hak, hs, hna, hbefore, hafter⟩ |
        ⟨a, e, hae, hek, hs, hna, hbefore, hfe, hbetween⟩
    · by_cases hk : flatRow img k
      · left
        refine ⟨?_, ?_⟩
        · have hk2 := hk
          unfold flatRow at hk2
          simp [rowStep, hs, hk2]
        · intro i hi
          rcases Nat.lt_succ_iff_lt_or_eq.mp hi with h | rfl
          · exact hflat i h
          · exact hk
      · right; left
        refine ⟨k, Nat.lt_succ_self k, ?_, hk, hflat, ?_⟩
        · have hk2 := hk
          unfold flatRow at hk2
          simp [rowStep, hs, hk2]
        · intro i h1 h2
          omega
    · have hane : ((a : Int) = -1) = False := by
        apply eq_false
        omega
      by_cases hk : flatRow img k
      · right; right
        refine ⟨a, k, hak, Nat.lt_succ_self k, ?_, hna, hbefore, hk, ?_⟩
        · have hk2 := hk
          unfold flatRow at hk2
          simp [rowStep, hs, hk2, hane]
        · intro i h1 h2
          exact hafter i h1 h2
      · right; left
        refine ⟨a, Nat.lt_succ_of_lt hak, ?_, hna, hbefore, ?_⟩
        · have hk2 := hk
          unfold flatRow at hk2
          simp [rowStep, hs, hk2, hane]
        · intro i h1 h2
          rcases Nat.lt_succ_iff_lt_or_eq.mp h2 with h | rfl
          · exact hafter i h1 h
          · exact hk
    · right; right
      have hane : ((a : Int) = -1) = False := by
        apply eq_false
        omega
      have hene : ((e : Int) = -1) = False := by
        apply eq_false
        omega
      refine ⟨a, e, hae, Nat.lt_succ_of_lt hek, ?_, hna, hbefore, hfe, hbetween⟩
      simp [rowStep, hs, hane, hene]

theorem getActiveArea_of_scan (img : Mat) :
    getActiveAreaDimensionsForFilePath (some img) =
      if (rowScan img img.rows).2 ≤ (rowScan img img.rows).1 then (-1, -1)
      else ((rowScan img img.rows).1, (rowScan img img.rows).2 - (rowScan img img.rows).1) := by
  simp [getActiveAreaDimensionsForFilePath]

/-- C4: when `getActiveAreaDimensionsForFilePath` returns a pair `(s, n)` other than
`(-1, -1)`, `s` is the index of the first non-flat row, `s + n` is the index of the
first flat row after `s`, and every row in `[s, s + n)` is non-flat; the rows
`[flat, flat, varied, varied, flat]` give `(2, 2)`. -/
theorem getActiveAreaDimensionsForFilePath_band (img : Mat) (s n : Int)
    (h : getActiveAreaDimensionsForFilePath (some img) = (s, n)) (hne : (s, n) ≠ (-1, -1)) :
    (∃ a e : Nat, s = (a : Int) ∧ s + n = (e : Int) ∧ a < e ∧ e < img.rows ∧
      ¬ flatRow img a ∧ (∀ i, i < a → flatRow img i) ∧
      flatRow img e ∧ (∀ i, a < i → i < e → ¬ flatRow img i) ∧
      (∀ i, a ≤ i → i < e → ¬ flatRow img i)) ∧
    getActiveAreaDimensionsForFilePath (some letterboxFrame) = (2, 2) := by
  refine ⟨?_, by decide⟩
  rw [getActiveArea_of_scan] at h
  rcases rowScan_cases img img.rows with ⟨hs, _⟩ | ⟨a, _, hs, _⟩ |
      ⟨a, e, hae, hek, hs, hna, hbefore, hfe, hbetween⟩
  · rw [hs] at h
    simp at h
    exact absurd (Prod.ext h.1.symm h.2.symm) hne
  · rw [hs] at h
    have hle : (-1 : Int) ≤ (a : Int) := by omega
    simp only [if_pos hle] at h
    exact absurd h.symm hne
  · rw [hs] at h
    have hlt : ¬ ((e : Int) ≤ (a : Int)) := by omega
    simp only [if_neg hlt] at h
    have h1 : (a : Int) = s := congrArg Prod.fst h
    have h2 : (e : Int) - (a : Int) = n := congrArg Prod.snd h
    refine ⟨a, e, h1.symm, by omega, hae, hek, hna, hbefore, hfe, hbetween, ?_⟩
    intro i h1 h2
    rcases Nat.eq_or_lt_of_le h1 with rfl | hlt
    · exact hna
    · exact hbetween i hlt h2

/-- Witness of C4: the sample frame gives the band `(2, 2)`. -/
theorem getActiveAreaDimensionsForFilePath_band_witness :
    getActiveAreaDimensionsForFilePath (some letterboxFrame) = (2, 2) ∧
    ((2 : Int), (2 : Int)) ≠ (-1, -1) ∧
    ((∃ a e : Nat, (2 : Int) = (a : Int) ∧ (2 : Int) + 2 = (e : Int) ∧ a < e ∧
      e < letterboxFrame.rows ∧
      ¬ flatRow letterboxFrame a ∧ (∀ i, i < a → flatRow letterboxFrame i) ∧
      flatRow letterboxFrame e ∧ (∀ i, a < i → i < e → ¬ flatRow letterboxFrame i) ∧
      (∀ i, a ≤ i → i < e → ¬ flatRow letterboxFrame i)) ∧
    getActiveAreaDimensionsForFilePath (some letterboxFrame) = (2, 2)) :=
  ⟨by decide, by decide,
    getActiveAreaDimensionsForFilePath_band letterboxFrame 2 2 (by decide) (by decide)⟩

/-- C5: `getActiveAreaDimensionsForFilePath` returns the sentinel `(-1, -1)` if and
only if the frame has no non-flat row, or has no flat row below its first non-flat
row. -/
theorem getActiveAreaDimensionsForFilePath_sentinel_iff (img : Mat) :
    getActiveAreaDimensionsForFilePath (some img) = (-1, -1) ↔
      ((∀ i, i < img.rows → flatRow img i) ∨
       (∃ a, a < img.rows ∧ ¬ flatRow img a ∧ (∀ i, i < a → flatRow img i) ∧
          ∀ i, a < i → i < img.rows → ¬ flatRow img i)) := by
  rw [getActiveArea_of_scan]
  rcases rowScan_cases img img.rows with ⟨hs, hflat⟩ | ⟨a, hak, hs, hna, hbefore, hafter⟩ |
      ⟨a, e, hae, hek, hs, hna, hbefore, hfe, hbetween⟩
  · rw [hs]
    simp only [le_refl, if_true, true_iff]
    exact Or.inl hflat
  · rw [hs]
    have hle : (-1 : Int) ≤ (a : Int) := by omega
    simp only [if_pos hle, true_iff]
    exact Or.inr ⟨a, hak, hna, hbefore, hafter⟩
  · rw [hs]
    have hlt : ¬ ((e : Int) ≤ (a : Int)) := by omega
    simp only [if_neg hlt]
    constructor
    · intro h
      have h1 : (a : Int) = -1 := congrArg Prod.fst h
      omega
    · rintro (hall | ⟨b, hb, hnb, hbb, hab⟩)
      · exact absurd (hall a (by omega)) hna
      · exfalso
        have hba : b = a := by
          rcases Nat.lt_trichotomy b a with h | h | h
          · exact absurd (hbefore b h) hnb
          · exact h
          · exact absurd (hbb a h) hna
        subst hba
        exact hab e hae hek hfe

/-! ## Sorting routine: permutation lemmas -/

theorem qSwap_perm {α : Type} (a : List α) (i j : Nat) : (qSwap a i j).Perm a := by
  classical
  unfold qSwap
  cases hi : a[i]? with
  | none => exact List.Perm.refl _
  | some x =>
    cases hj : a[j]? with
    | none => exact List.Perm.refl _
    | some y =>
      obtain ⟨hil, hix⟩ := List.getElem?_eq_some_iff.mp hi
      obtain ⟨hjl, hjy⟩ := List.getElem?_eq_some_iff.mp hj
      show ((a.set i y).set j x).Perm a
      rw [List.perm_iff_count]
      intro b
      have hjl2 : j < (a.set i y).length := by rw [List.length_set]; exact hjl
      rw [List.count_set _ _ _ _ hjl2, List.count_set _ _ _ _ hil]
      have hx : 1 ≤ List.count x a := List.one_le_count_iff.mpr (hix ▸ List.getElem_mem hil)
      have hy : 1 ≤ List.count y a := List.one_le_count_iff.mpr (hjy ▸ List.getElem_mem hjl)
      by_cases hij : i = j
      · subst hij
        have hxy : x = y := by rw [← hix, ← hjy]
        subst hxy
        simp only [List.getElem_set_self, hix]
        by_cases hb : x = b
        · subst hb
          simp
          omega
        · simp [hb]
      · have h1 : (a.set i y)[j] = y := by
          rw [List.getElem_set_ne hij]
          exact hjy
        rw [h1, hix]
        by_cases hbx : x = b
        · subst hbx
          by_cases hby : y = x
          · subst hby
            simp
            omega
          · simp [hby]
            omega
        · by_cases hby : y = b
          · subst hby
            simp [hbx]
          · simp [hbx, hby]

theorem qSwap_length {α : Type} (a : List α) (i j : Nat) : (qSwap a i j).length = a.length :=
  (qSwap_perm a i j).length_eq

theorem ite_qSwap_perm {α : Type} (c : Bool) (a : List α) (i j : Nat) :
    (if c = true then qSwap a i j else a).Perm a := by
  split_ifs
  · exact qSwap_perm a i j
  · exact List.Perm.refl _

theorem partitionLoop_perm {α : Type} (lt : α → α → Bool) (e fuel : Nat) (a : List α)
    (low high : Nat) : (partitionLoop lt e fuel a low high).1.Perm a := by
  induction fuel generalizing a low high with
  | zero => exact List.Perm.refl _
  | succ fuel ih =>
    unfold partitionLoop
    simp only
    split_ifs
    · exact (ih _ _ _).trans (qSwap_perm _ _ _)
    · exact List.Perm.refl _
    · exact List.Perm.refl _

theorem qSortHelper_perm {α : Type} (lt : α → α → Bool) (fuel : Nat) (a : List α)
    (start stop : Nat) : (qSortHelper lt fuel a start stop).Perm a := by
  induction fuel generalizing a start stop with
  | zero => exact List.Perm.refl _
  | succ fuel ih =>
    unfold qSortHelper
    simp only
    have s1 := ite_qSwap_perm (lessThanAt lt a (stop - 1) start) a (stop - 1) start
    by_cases h1 : stop - start < 2
    · rw [if_pos h1]
    · rw [if_neg h1]
      by_cases h2 : stop - start = 2
      · rw [if_pos h2]
        exact s1
      · rw [if_neg h2]
        by_cases h3 : stop - start = 3
        · rw [if_pos h3]
          exact (ite_qSwap_perm _ _ _ _).trans ((ite_qSwap_perm _ _ _ _).trans s1)
        · rw [if_neg h3]
          refine (ih _ _ _).trans ((ih _ _ _).trans ((qSwap_perm _ _ _).trans ?_))
          refine (partitionLoop_perm _ _ _ _ _ _).trans ((qSwap_perm _ _ _).trans ?_)
          exact (ite_qSwap_perm _ _ _ _).trans ((ite_qSwap_perm _ _ _ _).trans s1)

theorem qSort_perm {α : Type} (lt : α → α → Bool) (a : List α) : (qSort lt a).Perm a :=
  qSortHelper_perm lt a.length a 0 a.length

/-! ## Batch loop: structure of the output -/

theorem userDataList_eq (files : List String) (w i : Nat) (h : i + w ≤ files.length) :
    (List.range w).map (fun (y : Nat) => files.getD ((i : Int) + (y : Int)).toNat "")
      = (files.drop i).take w := by
  apply List.ext_getElem
  · simp
    omega
  · intro k h1 h2
    simp only [List.length_map, List.length_range] at h1
    have hk : i + k < files.length := by omega
    have e : ((i : Int) + (k : Int)).toNat = i + k := by omega
    simp [e, List.getElem?_eq_getElem hk]

theorem groupResults_eq {R : Type} (analyze : String → R) (files : List String) (w i : Nat)
    (h : i + w ≤ files.length) :
    groupResults analyze files (w : Int) (i : Int)
      = qSort sortHDRUserDataFilePath (((files.drop i).take w).map (fun f => (f, analyze f))) := by
  unfold groupResults
  simp only [Int.toNat_ofNat]
  rw [userDataList_eq files w i h]

theorem groupLoop_eq {R : Type} (analyze : String → R) (files : List String) (w : Nat)
    (hw : 1 ≤ w) (r : Nat) :
    ∀ (fuel i0 : Nat), r ≤ fuel → i0 + w * r ≤ files.length →
      groupLoop analyze files (w : Int) ((i0 + w * r : Nat) : Int) fuel (i0 : Int)
        = some ((List.range r).flatMap (fun j =>
            qSort sortHDRUserDataFilePath
              (((files.drop (i0 + w * j)).take w).map (fun f => (f, analyze f))))) := by
  induction r with
  | zero =>
    intro fuel i0 _ _
    cases fuel <;> simp [groupLoop]
  | succ r ih =>
    intro fuel i0 hf hlen
    cases fuel with
    | zero => omega
    | succ fuel =>
      have hlt : (i0 : Int) < ((i0 + w * (r + 1) : Nat) : Int) := by
        have : 0 < w * (r + 1) := Nat.mul_pos hw (Nat.succ_pos r)
        omega
      have hidx : i0 + w * (r + 1) = (i0 + w) + w * r := by
        rw [Nat.mul_succ]
        omega
      have hrec := ih fuel (i0 + w) (Nat.le_of_succ_le_succ hf) (by omega)
      have hgr := groupResults_eq analyze files w i0 (by
        have : w ≤ w * (r + 1) := Nat.le_mul_of_pos_right w (Nat.succ_pos r)
        omega)
      unfold groupLoop
      rw [if_pos hlt, hidx]
      have hcast : ((i0 : Int) + (w : Int)) = ((i0 + w : Nat) : Int) := by simp
      rw [hcast, hrec, hgr, List.range_succ_eq_map, List.flatMap_cons, List.flatMap_map]
      simp only [Option.map_some', Nat.mul_zero, Nat.add_zero, Function.comp, Nat.succ_eq_add_one]
      congr 2
      apply congrArg
      funext j
      have : i0 + w + w * j = i0 + w * (j + 1) := by
        rw [Nat.mul_succ]
        omega
      rw [this]

theorem blocks_flatMap {α : Type} (l : List α) (w q : Nat) :
    ∀ i0, (List.range q).flatMap (fun j => (l.drop (i0 + w * j)).take w)
      = (l.drop i0).take (w * q) := by
  induction q with
  | zero => intro i0; simp
  | succ q ih =>
    intro i0
    rw [List.range_succ_eq_map, List.flatMap_cons, List.flatMap_map, Nat.mul_succ,
      Nat.add_comm (w * q) w, List.take_add, List.drop_drop, ← ih (i0 + w)]
    simp only [Nat.mul_zero, Nat.add_zero, Function.comp, Nat.succ_eq_add_one]
    congr 2
    funext j
    have : i0 + w * (j + 1) = i0 + w + w * j := by
      rw [Nat.mul_succ]
      omega
    rw [this]

theorem groupedPath_eq {R : Type} (analyze : String → R) (files : List String) (w fuel : Nat)
    (hw : 1 ≤ w) (hf : files.length / w ≤ fuel) :
    groupedPath analyze files (w : Int) fuel
      = Run.finished ((List.range (files.length / w)).flatMap (fun j =>
            qSort sortHDRUserDataFilePath
              (((files.drop (w * j)).take w).map (fun f => (f, analyze f))))
          ++ (files.drop (w * (files.length / w))).map (fun f => (f, analyze f))) := by
  have hmod : Int.tmod (files.length : Int) (w : Int) = ((files.length % w : Nat) : Int) := by
    rw [Int.tmod_eq_emod (Int.ofNat_nonneg _) (Int.ofNat_nonneg _)]
    simp
  have hmax : (files.length : Int) - ((files.length % w : Nat) : Int)
      = ((0 + w * (files.length / w) : Nat) : Int) := by
    have := Nat.div_add_mod files.length w
    omega
  have hle : 0 + w * (files.length / w) ≤ files.length := by
    have := Nat.div_mul_le_self files.length w
    rw [Nat.mul_comm] at this
    omega
  have hloop := groupLoop_eq analyze files w hw (files.length / w) fuel 0 hf hle
  unfold groupedPath
  simp only [hmod, hmax]
  have h0 : ((0 : Nat) : Int) = 0 := rfl
  rw [h0] at hloop
  rw [hloop]
  simp only [Int.toNat_ofNat, Nat.zero_add, sequentialLoop]

theorem batchLoop_eq {R : Type} (analyze : String → R) (files : List String) (w fuel : Nat) :
    batchLoop analyze files (w : Int) fuel =
      if files.length < w then Run.finished (files.map (fun f => (f, analyze f)))
      else groupedPath analyze files (w : Int) fuel := by
  unfold batchLoop
  simp [sequentialLoop]

theorem qSort_short {α : Type} (lt : α → α → Bool) (a : List α) (h : a.length ≤ 1) :
    qSort lt a = a := by
  unfold qSort
  cases hl : a.length with
  | zero => rfl
  | succ n =>
    unfold qSortHelper
    simp only
    rw [if_pos (by omega)]

theorem blocks_records {R : Type} (analyze : String → R) (files : List String) (w q : Nat) :
    (List.range q).flatMap (fun j => ((files.drop (w * j)).take w).map (fun f => (f, analyze f)))
      = ((files.take (w * q))).map (fun f => (f, analyze f)) := by
  have h := blocks_flatMap (files.map (fun f => (f, analyze f))) w q 0
  simp only [Nat.zero_add, List.drop_zero, List.map_drop, List.map_take] at h ⊢
  exact h

theorem grouped_of_unchanged {R : Type} (analyze : String → R) (files : List String) (w : Nat)
    (h : ∀ j, j < files.length / w →
      qSort sortHDRUserDataFilePath (((files.drop (w * j)).take w).map (fun f => (f, analyze f)))
        = ((files.drop (w * j)).take w).map (fun f => (f, analyze f))) :
    (List.range (files.length / w)).flatMap (fun j =>
        qSort sortHDRUserDataFilePath
          (((files.drop (w * j)).take w).map (fun f => (f, analyze f))))
      ++ (files.drop (w * (files.length / w))).map (fun f => (f, analyze f))
      = files.map (fun f => (f, analyze f)) := by
  have e : (List.range (files.length / w)).flatMap (fun j =>
        qSort sortHDRUserDataFilePath
          (((files.drop (w * j)).take w).map (fun f => (f, analyze f))))
      = (List.range (files.length / w)).flatMap (fun j =>
          ((files.drop (w * j)).take w).map (fun f => (f, analyze f))) := by
    simp only [List.flatMap_def]
    congr 1
    apply List.map_congr_left
    intro j hj
    exact h j (List.mem_range.mp hj)
  rw [e, blocks_records, ← List.map_append, List.take_append_drop]

/-- C7: a full group need not come out in ascending path order. For the four files
`f1 .. f4` and four workers `QString::compare` gives `2` on `("f3", "f1")`, the
comparator `sortHDRUserDataFilePath` (which tests `result == 1`) answers `true`
for this pair in both orders, and the batch loop writes `f3, f1, f2, f4`. -/
theorem batchLoop_group_not_ascending :
    batchLoop sampleAnalyze ["f1", "f2", "f3", "f4"] 4 4
      = Run.finished [("f3", ⟨100, 400⟩), ("f1", ⟨100, 400⟩), ("f2", ⟨100, 400⟩),
          ("f4", ⟨100, 400⟩)] ∧
    QString_compare "f3" "f1" = 2 ∧
    sortHDRUserDataFilePath ("f3", sampleAnalyze "f3") ("f1", sampleAnalyze "f1") = true ∧
    sortHDRUserDataFilePath ("f1", sampleAnalyze "f1") ("f3", sampleAnalyze "f3") = true := by
  decide

/-- C10: with ten samples that all return `(280, 1520)` the tally holds the single
key `280,1520`, the region `(280, 1520)` is selected, and the disagreement warning
and prompt are raised all the same, since `main` tests
`activeAreaResultMap.count() > 0`. -/
theorem consensusOf_warns_on_agreement :
    (List.replicate 10 ((280 : Int), (1520 : Int))).foldl tallyStep []
      = [("280,1520", ⟨280, 1520, 10⟩)] ∧
    disagreementWarning ((List.replicate 10 ((280 : Int), (1520 : Int))).foldl tallyStep [])
      = true ∧
    consensusOf (List.replicate 10 (280, 1520)) ⟨0, 0, 0⟩ "y"
      = some ⟨[("280,1520", ⟨280, 1520, 10⟩)], true, 280, 1520⟩ ∧
    consensusOf (List.replicate 10 (280, 1520)) ⟨0, 0, 0⟩ "n" = none := by
  decide

/-! ## Consensus: order of the tally and selection -/

theorem char_toNat_ne {a b : Char} (h : a ≠ b) : (a.toNat : Int) ≠ (b.toNat : Int) := by
  intro e
  apply h
  have e2 : a.toNat = b.toNat := by exact_mod_cast e
  have e3 : Char.ofNat a.toNat = Char.ofNat b.toNat := by rw [e2]
  simpa using e3

theorem ucstrcmp_self (a : List Char) : ucstrcmp a a = 0 := by
  induction a with
  | nil => rfl
  | cons x xs ih => simp [ucstrcmp, ih]

theorem ucstrcmp_lt_trans (a : List Char) :
    ∀ b c : List Char, ucstrcmp a b < 0 → ucstrcmp b c < 0 → ucstrcmp a c < 0 := by
  induction a with
  | nil =>
    intro b c h1 h2
    cases b with
    | nil => simp [ucstrcmp] at h1
    | cons y bs =>
      cases c with
      | nil =>
        simp only [ucstrcmp, List.length_cons] at h2
        omega
      | cons z cs =>
        simp only [ucstrcmp, List.length_cons]
        omega
  | cons x xs ih =>
    intro b c h1 h2
    cases b with
    | nil =>
      simp only [ucstrcmp, List.length_cons] at h1
      omega
    | cons y bs =>
      cases c with
      | nil =>
        simp only [ucstrcmp, List.length_cons] at h2
        omega
      | cons z cs =>
        simp only [ucstrcmp] at h1 h2 ⊢
        by_cases hxy : x = y
        · subst hxy
          rw [if_pos rfl] at h1
          by_cases hxz : x = z
          · subst hxz
            rw [if_pos rfl] at h2
            rw [if_pos rfl]
            exact ih bs cs h1 h2
          · rw [if_neg hxz] at h2
            rw [if_neg hxz]
            exact h2
        · rw [if_neg hxy] at h1
          by_cases hyz : y = z
          · subst hyz
            rw [if_neg hxy]
            exact h1
          · rw [if_neg hyz] at h2
            have hxz : x ≠ z := by
              intro e
              subst e
              omega
            rw [if_neg hxz]
            omega

theorem ucstrcmp_total (a : List Char) :
    ∀ b : List Char, ¬ ucstrcmp a b < 0 → a ≠ b → ucstrcmp b a < 0 := by
  induction a with
  | nil =>
    intro b h1 h2
    cases b with
    | nil => exact absurd rfl h2
    | cons y bs =>
      simp only [ucstrcmp, List.length_cons] at h1
      omega
  | cons x xs ih =>
    intro b h1 h2
    cases b with
    | nil =>
      simp only [ucstrcmp, List.length_cons]
      omega
    | cons y bs =>
      simp only [ucstrcmp] at h1 ⊢
      by_cases hxy : x = y
      · subst hxy
        rw [if_pos rfl] at h1
        rw [if_pos rfl]
        exact ih bs h1 (fun e => h2 (by rw [e]))
      · rw [if_neg hxy] at h1
        rw [if_neg (fun e => hxy e.symm)]
        have := char_toNat_ne hxy
        omega

theorem QString_compare_trans (a b c : String) (h1 : QString_compare a b < 0)
    (h2 : QString_compare b c < 0) : QString_compare a c < 0 :=
  ucstrcmp_lt_trans a.data b.data c.data h1 h2

theorem QString_compare_total (a b : String) (h1 : ¬ QString_compare a b < 0) (h2 : a ≠ b) :
    QString_compare b a < 0 :=
  ucstrcmp_total a.data b.data h1 (fun e => h2 (String.ext e))

theorem QMap_insert_mem {T : Type} (m : QMap T) (key : String) (v : T) (e : String × T)
    (h : e ∈ QMap.insert m key v) : e = (key, v) ∨ e ∈ m := by
  induction m with
  | nil =>
    simp only [QMap.insert, List.mem_singleton] at h
    exact Or.inl h
  | cons hd rest ih =>
    obtain ⟨k, w⟩ := hd
    simp only [QMap.insert] at h
    split_ifs at h with h1 h2
    · rcases List.mem_cons.mp h with h | h
      · exact Or.inl h
      · exact Or.inr (List.mem_cons_of_mem _ h)
    · rcases List.mem_cons.mp h with h | h
      · exact Or.inl h
      · exact Or.inr h
    · rcases List.mem_cons.mp h with h | h
      · exact Or.inr (h ▸ List.mem_cons_self _ _)
      · rcases ih h with h | h
        · exact Or.inl h
        · exact Or.inr (List.mem_cons_of_mem _ h)

theorem QMap_insert_ne_nil {T : Type} (m : QMap T) (key : String) (v : T) :
    QMap.insert m key v ≠ [] := by
  cases m with
  | nil => simp [QMap.insert]
  | cons hd rest =>
    obtain ⟨k, w⟩ := hd
    simp only [QMap.insert]
    split_ifs <;> simp

theorem QMap_insert_sorted {T : Type} (m : QMap T) (key : String) (v : T)
    (h : List.Pairwise (fun a b : String × T => QString_compare a.1 b.1 < 0) m) :
    List.Pairwise (fun a b : String × T => QString_compare a.1 b.1 < 0) (QMap.insert m key v) := by
  induction m with
  | nil => simp [QMap.insert]
  | cons hd rest ih =>
    obtain ⟨k, w⟩ := hd
    obtain ⟨hhd, hrest⟩ := List.pairwise_cons.mp h
    simp only [QMap.insert]
    split_ifs with h1 h2
    · subst h1
      exact List.pairwise_cons.mpr ⟨hhd, hrest⟩
    · refine List.pairwise_cons.mpr ⟨?_, h⟩
      intro e he
      rcases List.mem_cons.mp he with he | he
      · rw [he]
        exact h2
      · exact QString_compare_trans key k e.1 h2 (hhd e he)
    · refine List.pairwise_cons.mpr ⟨?_, ih hrest⟩
      intro e he
      rcases QMap_insert_mem rest key v e he with he | he
      · rw [he]
        exact QString_compare_total key k h2 (fun e => h1 e.symm)
      · exact hhd e he

theorem QMap_value_mem {T : Type} (m : QMap T) (key : String) (dflt : T)
    (h : m.contains key = true) : ∃ e, e ∈ m ∧ QMap.value m key dflt = e.2 := by
  unfold QMap.contains at h
  obtain ⟨e, he, hk⟩ := List.any_eq_true.mp h
  unfold QMap.value
  cases hf : m.find? (fun e => e.1 = key) with
  | none =>
    have := List.find?_eq_none.mp hf e he
    exact absurd hk this
  | some e2 => exact ⟨e2, List.mem_of_find?_eq_some hf, rfl⟩

theorem tallyStep_inv (m : QMap HDRActiveAreaSetMember) (r : Int × Int)
    (h1 : List.Pairwise
      (fun a b : String × HDRActiveAreaSetMember => QString_compare a.1 b.1 < 0) m)
    (h2 : ∀ e, e ∈ m → 1 ≤ e.2.count) :
    List.Pairwise (fun a b : String × HDRActiveAreaSetMember => QString_compare a.1 b.1 < 0)
        (tallyStep m r) ∧
      (∀ e, e ∈ tallyStep m r → 1 ≤ e.2.count) ∧ tallyStep m r ≠ [] := by
  unfold tallyStep
  simp only
  split_ifs with hc
  · refine ⟨QMap_insert_sorted _ _ _ h1, ?_, QMap_insert_ne_nil _ _ _⟩
    intro e he
    rcases QMap_insert_mem _ _ _ _ he with he | he
    · obtain ⟨e0, he0, hv⟩ := QMap_value_mem m (resultKey r) ⟨0, 0, 0⟩ hc
      rw [he]
      simp only [hv]
      have := h2 e0 he0
      omega
    · exact h2 e he
  · refine ⟨QMap_insert_sorted _ _ _ h1, ?_, QMap_insert_ne_nil _ _ _⟩
    intro e he
    rcases QMap_insert_mem _ _ _ _ he with he | he
    · rw [he]
    · exact h2 e he

theorem tally_inv (results : List (Int × Int)) :
    ∀ m : QMap HDRActiveAreaSetMember,
      List.Pairwise
        (fun a b : String × HDRActiveAreaSetMember => QString_compare a.1 b.1 < 0) m →
      (∀ e, e ∈ m → 1 ≤ e.2.count) →
      List.Pairwise (fun a b : String × HDRActiveAreaSetMember => QString_compare a.1 b.1 < 0)
          (results.foldl tallyStep m) ∧
        (∀ e, e ∈ results.foldl tallyStep m → 1 ≤ e.2.count) ∧
        (m ≠ [] ∨ results ≠ [] → results.foldl tallyStep m ≠ []) := by
  induction results with
  | nil =>
    intro m h1 h2
    refine ⟨h1, h2, ?_⟩
    intro h
    rcases h with h | h
    · exact h
    · exact absurd rfl h
  | cons r rs ih =>
    intro m h1 h2
    obtain ⟨s1, s2, s3⟩ := tallyStep_inv m r h1 h2
    obtain ⟨t1, t2, t3⟩ := ih (tallyStep m r) s1 s2
    exact ⟨t1, t2, fun _ => t3 (Or.inl s3)⟩

theorem selectHighest_fold (l : QMap HDRActiveAreaSetMember) :
    ∀ h : String × Int × HDRActiveAreaSetMember,
      (l.foldl (fun h e => if e.2.count > h.2.1 then (e.1, e.2.count, e.2) else h) h = h ∧
        ∀ e, e ∈ l → e.2.count ≤ h.2.1) ∨
      ∃ (i : Nat) (e : String × HDRActiveAreaSetMember), l[i]? = some e ∧
        l.foldl (fun h e => if e.2.count > h.2.1 then (e.1, e.2.count, e.2) else h) h
          = (e.1, e.2.count, e.2) ∧
        h.2.1 < e.2.count ∧ (∀ e', e' ∈ l → e'.2.count ≤ e.2.count) ∧
        ∀ j e', j < i → l[j]? = some e' → e'.2.count < e.2.count := by
  induction l with
  | nil =>
    intro h
    left
    exact ⟨rfl, fun e he => absurd he (List.not_mem_nil e)⟩
  | cons a t ih =>
    intro h
    rw [List.foldl_cons]
    by_cases hgt : a.2.count > h.2.1
    · rw [if_pos hgt]
      right
      rcases ih (a.1, a.2.count, a.2) with ⟨hr, hall⟩ | ⟨i, e, hi, hr, hlt, hall, hfirst⟩
      · refine ⟨0, a, List.getElem?_cons_zero, hr, hgt, ?_, ?_⟩
        · intro e' he'
          rcases List.mem_cons.mp he' with he' | he'
          · rw [he']
          · exact hall e' he'
        · intro j e' hj _
          omega
      · refine ⟨i + 1, e, by simpa using hi, hr, lt_trans hgt hlt, ?_, ?_⟩
        · intro e' he'
          rcases List.mem_cons.mp he' with he' | he'
          · rw [he']
            exact le_of_lt hlt
          · exact hall e' he'
        · intro j e' hj hje
          cases j with
          | zero =>
            simp only [List.getElem?_cons_zero, Option.some.injEq] at hje
            rw [← hje]
            exact hlt
          | succ j =>
            simp only [List.getElem?_cons_succ] at hje
            exact hfirst j e' (by omega) hje
    · rw [if_neg hgt]
      rcases ih h with ⟨hr, hall⟩ | ⟨i, e, hi, hr, hlt, hall, hfirst⟩
      · left
        refine ⟨hr, ?_⟩
        intro e' he'
        rcases List.mem_cons.mp he' with he' | he'
        · rw [he']
          exact not_lt.mp hgt
        · exact hall e' he'
      · right
        refine ⟨i + 1, e, by simpa using hi, hr, hlt, ?_, ?_⟩
        · intro e' he'
          rcases List.mem_cons.mp he' with he' | he'
          · rw [he']
            exact le_trans (not_lt.mp hgt) (le_of_lt hlt)
          · exact hall e' he'
        · intro j e' hj hje
          cases j with
          | zero =>
            simp only [List.getElem?_cons_zero, Option.some.injEq] at hje
            rw [← hje]
            exact lt_of_le_of_lt (not_lt.mp hgt) hlt
          | succ j =>
            simp only [List.getElem?_cons_succ] at hje
            exact hfirst j e' (by omega) hje

/-- C11: for a non-empty list of samples the tally is non-empty and in ascending key
order (the iteration order of the `QMap`); the selected entry has a count greater
than or equal to that of every entry and strictly greater than that of every entry
before it in iteration order, so it is the first entry with the highest count; and
unless the reply at the prompt is `N` or `n`, `yOffset` and `yLength` are set to that
entry's fields. -/
theorem consensusOf_selects_first_highest (results : List (Int × Int))
    (uninit : HDRActiveAreaSetMember) (reply : String) (hne : results ≠ []) :
    results.foldl tallyStep [] ≠ [] ∧
    List.Pairwise (fun a b : String × HDRActiveAreaSetMember => QString_compare a.1 b.1 < 0)
      (results.foldl tallyStep []) ∧
    ∃ (i : Nat) (e : String × HDRActiveAreaSetMember),
      (results.foldl tallyStep [])[i]? = some e ∧
      selectHighest (results.foldl tallyStep []) uninit = (e.1, e.2.count, e.2) ∧
      (∀ e', e' ∈ results.foldl tallyStep [] → e'.2.count ≤ e.2.count) ∧
      (∀ j e', j < i → (results.foldl tallyStep [])[j]? = some e' →
        e'.2.count < e.2.count) ∧
      consensusOf results uninit reply =
        if reply = "N" ∨ reply = "n" then none
        else some ⟨results.foldl tallyStep [], true, e.2.y, e.2.height⟩ := by
  obtain ⟨t1, t2, t3⟩ := tally_inv results [] List.Pairwise.nil
    (fun e he => absurd he (List.not_mem_nil e))
  have hnn := t3 (Or.inr hne)
  refine ⟨hnn, t1, ?_⟩
  rcases selectHighest_fold (results.foldl tallyStep []) ("", 0, uninit) with
    ⟨_, hall⟩ | ⟨i, e, hi, hr, _, hall, hfirst⟩
  · exfalso
    cases hl : results.foldl tallyStep [] with
    | nil => exact hnn hl
    | cons a t =>
      have ha : a ∈ results.foldl tallyStep [] := by
        rw [hl]
        exact List.mem_cons_self _ _
      have h1 := t2 a ha
      have h2 := hall a ha
      simp only at h2
      omega
  · refine ⟨i, e, hi, hr, hall, hfirst, ?_⟩
    have hw : disagreementWarning (results.foldl tallyStep []) = true := by
      unfold disagreementWarning
      exact decide_eq_true (List.length_pos.mpr hnn)
    have hsel : selectHighest (results.foldl tallyStep []) uninit = (e.1, e.2.count, e.2) := hr
    unfold consensusOf
    simp only [hw, hsel, if_true]

/-- Witness of C11: five samples with three distinct results. -/
theorem consensusOf_selects_first_highest_witness :
    [((280 : Int), (1520 : Int)), (-1, -1), (100, 5), (280, 1520), (-1, -1)] ≠ [] ∧
    ([((280 : Int), (1520 : Int)), (-1, -1), (100, 5), (280, 1520), (-1, -1)].foldl
        tallyStep [] ≠ [] ∧
    List.Pairwise (fun a b : String × HDRActiveAreaSetMember => QString_compare a.1 b.1 < 0)
      ([((280 : Int), (1520 : Int)), (-1, -1), (100, 5), (280, 1520), (-1, -1)].foldl
        tallyStep []) ∧
    ∃ (i : Nat) (e : String × HDRActiveAreaSetMember),
      ([((280 : Int), (1520 : Int)), (-1, -1), (100, 5), (280, 1520), (-1, -1)].foldl
          tallyStep [])[i]? = some e ∧
      selectHighest ([((280 : Int), (1520 : Int)), (-1, -1), (100, 5), (280, 1520),
          (-1, -1)].foldl tallyStep []) ⟨0, 0, 0⟩ = (e.1, e.2.count, e.2) ∧
      (∀ e', e' ∈ [((280 : Int), (1520 : Int)), (-1, -1), (100, 5), (280, 1520),
          (-1, -1)].foldl tallyStep [] → e'.2.count ≤ e.2.count) ∧
      (∀ j e', j < i → ([((280 : Int), (1520 : Int)), (-1, -1), (100, 5), (280, 1520),
          (-1, -1)].foldl tallyStep [])[j]? = some e' → e'.2.count < e.2.count) ∧
      consensusOf [((280 : Int), (1520 : Int)), (-1, -1), (100, 5), (280, 1520), (-1, -1)]
          ⟨0, 0, 0⟩ "y" =
        if "y" = "N" ∨ "y" = "n" then none
        else some ⟨[((280 : Int), (1520 : Int)), (-1, -1), (100, 5), (280, 1520),
          (-1, -1)].foldl tallyStep [], true, e.2.y, e.2.height⟩) :=
  ⟨by decide,
    consensusOf_selects_first_highest
      [((280 : Int), (1520 : Int)), (-1, -1), (100, 5), (280, 1520), (-1, -1)] ⟨0, 0, 0⟩ "y"
      (by decide)⟩

/-! ## Region selection: the length check -/

/-- C12: a region with `rowCount ≤ 0` reaches the frame analyzer. When the sampled
frame has no letterbox bars the detector returns `(-1, -1)`, the consensus sets
`yLength = -1`, the check `yLength == 0` lets the run go on, and the file is
analyzed with the region `{0, -1, 0, -1}`; likewise `-d -5` gives the region
`{0, 0, 0, -5}`. -/
theorem mainRun_negative_length {R : Type} (analyze : HDRActiveArea → String → R)
    (qrand : Nat → Nat) (uninit : HDRActiveAreaSetMember) (fs : String → Option Mat) :
    getActiveAreaDimensionsForFilePath (some fullFrame) = (-1, -1) ∧
    mainRun analyze none none (fun _ => some fullFrame) ["a.tif"] qrand uninit "y" 4 1
      = Run.finished [("a.tif", analyze ⟨0, -1, 0, -1⟩ "a.tif")] ∧
    mainRun analyze none (some (-5)) fs ["a.tif"] qrand uninit "y" 4 1
      = Run.finished [("a.tif", analyze ⟨0, 0, 0, -5⟩ "a.tif")] := by
  have hd : getActiveAreaDimensionsForFilePath (some fullFrame) = (-1, -1) := by decide
  have hs : sampleResults (fun _ => some fullFrame) ["a.tif"] qrand = [(-1, -1)] := by
    simp [sampleResults, countOfFilesToCheck, hd]
  have hc : consensusOf [(-1, -1)] uninit "y"
      = some ⟨[("-1,-1", ⟨-1, -1, 1⟩)], true, -1, -1⟩ := by
    rfl
  refine ⟨hd, ?_, ?_⟩
  · simp [mainRun, mainRegion, activeAreaConsensus, hs, hc, mainBatch, threadCheckedBatch,
      batchLoop, sequentialLoop]
  · simp [mainRun, mainRegion, mainBatch, threadCheckedBatch, batchLoop, sequentialLoop]

/-! ## Lookup table and independence of the colour space -/

section TableAndColourProofs

variable {K : Type} [LinearOrderedField K]

/-- In exact arithmetic, without the narrowing to `float`: for both range policies
the table holds `PQ10000_f((i - black) / range)` at every raw sample `i` in
`[0, 65535]`, and every such `i` lies below the loop bound `pixelMax` and inside the
allocated block. -/
theorem lookupTable_entry (pow : K → K → K) (useFull : Bool) (i : Nat) (hi : i ≤ 65535) :
    tableAt (lookupTable pow useFull) i
        = PQ10000_f pow (((i : K) - (if useFull then 0 else 4096))
            / (if useFull then 65535 else 56064)) ∧
    i < pixelMax ∧ i < (lookupTable pow useFull).size ∧
    lookupTableUpTo pow useFull (i + 1)
      = (lookupTableUpTo pow useFull i).setD i
          (PQ10000_f pow (((i : K) - (if useFull then 0 else 4096))
            / (if useFull then 65535 else 56064))) := by
  have hpm : i < pixelMax := by
    have : pixelMax = 65536 := by decide
    omega
  have hb : blackLevel useFull = (if useFull then (0 : K) else 4096) := rfl
  have hr : sampleRange useFull = (if useFull then (65535 : K) else 56064) := by
    unfold sampleRange
    split_ifs
    · rfl
    · norm_num
  refine ⟨?_, hpm, ?_, ?_⟩
  · rw [tableAt_lookupTable, if_pos hpm, hb, hr]
  · unfold lookupTable
    rw [lookupTableUpTo_size]
    have : pixelMax = 65536 := by decide
    have h2 : (2 <<< 16 : Nat) = 131072 := by decide
    omega
  · rw [lookupTableUpTo_succ, lookupTableStep, hb, hr]

theorem pixelStep_colour (t : Array K) (img : Mat) (x y : Nat) (s s' : Acc K)
    (h1 : s.maxFALL = s'.maxFALL) (h2 : s.maxCLL = s'.maxCLL) :
    (pixelStep t true img x y s).maxFALL = (pixelStep t false img x y s').maxFALL ∧
    (pixelStep t true img x y s).maxCLL = (pixelStep t false img x y s').maxCLL := by
  simp only [pixelStep, h1, h2, and_self]

theorem columnLoop_colour (t : Array K) (img : Mat) (n x : Nat) (s s' : Acc K)
    (h1 : s.maxFALL = s'.maxFALL) (h2 : s.maxCLL = s'.maxCLL) :
    (columnLoop t true img n x s).maxFALL = (columnLoop t false img n x s').maxFALL ∧
    (columnLoop t true img n x s).maxCLL = (columnLoop t false img n x s').maxCLL := by
  induction n with
  | zero => exact ⟨h1, h2⟩
  | succ n ih =>
    rw [columnLoop_succ, columnLoop_succ]
    exact pixelStep_colour t img x n _ _ ih.1 ih.2

theorem pixelLoop_colour (t : Array K) (img : Mat) (k n : Nat) (s s' : Acc K)
    (h1 : s.maxFALL = s'.maxFALL) (h2 : s.maxCLL = s'.maxCLL) :
    (pixelLoop t true img k n s).maxFALL = (pixelLoop t false img k n s').maxFALL ∧
    (pixelLoop t true img k n s).maxCLL = (pixelLoop t false img k n s').maxCLL := by
  induction k with
  | zero => exact ⟨h1, h2⟩
  | succ k ih =>
    rw [pixelLoop_succ, pixelLoop_succ]
    exact columnLoop_colour t img n k _ _ ih.1 ih.2

/-- C17: the result of `calculateMetadataForPath` does not depend on the colour-space
selection: for every outcome of opening the file, every region and range policy, the
calls with `use2020 = true` and `use2020 = false` return the same `maxFALL` and the
same `maxCLL` (the weighted luma only reaches the accumulator `mean`). -/
theorem calculateMetadataForPath_colour_independent (pow : K → K → K) (input : Option Mat)
    (useFull : Bool) (area : HDRActiveArea) :
    calculateMetadataForPath pow input true useFull area
      = calculateMetadataForPath pow input false useFull area := by
  cases input with
  | none => rfl
  | some img =>
    cases hc : cropRect img area with
    | none => simp only [calculateMetadataForPath, hc]
    | some r =>
      cases hr : img.roi r with
      | none => simp only [calculateMetadataForPath, hc, hr]
      | some cv =>
        rw [calculateMetadataForPath_of_roi pow img cv true useFull area r hc hr,
          calculateMetadataForPath_of_roi pow img cv false useFull area r hc hr]
        obtain ⟨e1, e2⟩ := pixelLoop_colour (lookupTable pow useFull) cv r.width.toNat
          r.height.toNat ⟨0, 0, 0⟩ ⟨0, 0, 0⟩ rfl rfl
        rw [e1, e2]

end TableAndColourProofs

/-! ## Mean against peak -/

section MeanPeakProofs

variable {K : Type} [LinearOrderedField K]

theorem calculateMetadataForPath_of_region (pow : K → K → K) (img : Mat)
    (use2020 useFull : Bool) (area : HDRActiveArea) (hy : 0 ≤ area.y) (hh : 0 < area.height)
    (hb : area.y + area.height ≤ (img.rows : Int)) :
    calculateMetadataForPath pow (some img) use2020 useFull area =
      some ⟨10000 * ((∑ x ∈ Finset.range img.cols, ∑ y ∈ Finset.range area.height.toNat,
                Lmax (lookupTable pow useFull) (img.px (area.y.toNat + y) x))
              / ((img.cols : K) * (area.height.toNat : K))),
            10000 * (pixelLoop (lookupTable pow useFull) use2020
              ⟨area.height.toNat, img.cols, fun j x => img.px (area.y.toNat + j) x⟩
              img.cols area.height.toNat ⟨0, 0, 0⟩).maxCLL⟩ := by
  have hcrop := cropRect_of_region img area hh hb
  have hroi := roi_of_region img area.y area.height hy (le_of_lt hh) hb
  have hres := calculateMetadataForPath_of_roi pow img _ use2020 useFull area _ hcrop hroi
  simp only [Int.toNat_ofNat] at hres
  have hsum := pixelLoop_maxFALL (lookupTable pow useFull) use2020
    ⟨area.height.toNat, img.cols, fun j x => img.px (area.y.toNat + j) x⟩
    img.cols area.height.toNat ⟨0, 0, 0⟩
  simp only at hsum
  have hden : (((img.cols : Int) * area.height : Int) : K)
      = (img.cols : K) * (area.height.toNat : K) := by
    have : area.height = (area.height.toNat : Int) := (Int.toNat_of_nonneg (le_of_lt hh)).symm
    rw [Int.cast_mul, Int.cast_natCast]
    conv_lhs => rw [this]
    rw [Int.cast_natCast]
  rw [hres, hsum, zero_add, hden]

/-- C18: for a decoded frame of width `w > 0` and a valid non-empty region, if all
lookup-table values are non-negative then `calculateMetadataForPath` returns
`0 ≤ maxFALL ≤ maxCLL`, so the result is neither the `CANT_OPEN_FILE` sentinel
`(-1, -1)` nor the `INVALID_ACTIVE_AREA` sentinel `(-2, -2)`. -/
theorem calculateMetadataForPath_mean_le_peak (pow : K → K → K) (img : Mat)
    (use2020 useFull : Bool) (area : HDRActiveArea)
    (hw : 0 < img.cols) (hy : 0 ≤ area.y) (hh : 0 < area.height)
    (hb : area.y + area.height ≤ (img.rows : Int))
    (hnn : ∀ v, 0 ≤ tableAt (lookupTable pow useFull) v) :
    ∃ r : HDRMetaDataResult K,
      calculateMetadataForPath pow (some img) use2020 useFull area = some r ∧
      0 ≤ r.maxFALL ∧ r.maxFALL ≤ r.maxCLL ∧
      r ≠ (⟨-1, -1⟩ : HDRMetaDataResult K) ∧ r ≠ (⟨-2, -2⟩ : HDRMetaDataResult K) := by
  have hres := calculateMetadataForPath_of_region pow img use2020 useFull area hy hh hb
  obtain ⟨_, p2, _⟩ := pixelLoop_maxCLL (lookupTable pow useFull) use2020
    ⟨area.height.toNat, img.cols, fun j x => img.px (area.y.toNat + j) x⟩
    img.cols area.height.toNat ⟨0, 0, 0⟩
  simp only at p2
  have hLnn : ∀ p : Vec3w, 0 ≤ Lmax (lookupTable pow useFull) p := fun p =>
    le_trans (hnn p.val2) (le_max_right _ _)
  have hpos : 0 < area.height.toNat := by omega
  have hcols : (0 : K) < (img.cols : K) := by exact_mod_cast hw
  have hrows : (0 : K) < (area.height.toNat : K) := by exact_mod_cast hpos
  have hden : (0 : K) < (img.cols : K) * (area.height.toNat : K) := mul_pos hcols hrows
  have hS0 : (0 : K) ≤ ∑ x ∈ Finset.range img.cols, ∑ y ∈ Finset.range area.height.toNat,
      Lmax (lookupTable pow useFull) (img.px (area.y.toNat + y) x) :=
    Finset.sum_nonneg (fun x _ => Finset.sum_nonneg (fun y _ => hLnn _))
  have hSle : (∑ x ∈ Finset.range img.cols, ∑ y ∈ Finset.range area.height.toNat,
      Lmax (lookupTable pow useFull) (img.px (area.y.toNat + y) x))
      ≤ ((img.cols : K) * (area.height.toNat : K)) *
        (pixelLoop (lookupTable pow useFull) use2020
          ⟨area.height.toNat, img.cols, fun j x => img.px (area.y.toNat + j) x⟩
          img.cols area.height.toNat ⟨0, 0, 0⟩).maxCLL := by
    calc (∑ x ∈ Finset.range img.cols, ∑ y ∈ Finset.range area.height.toNat,
            Lmax (lookupTable pow useFull) (img.px (area.y.toNat + y) x))
        ≤ ∑ _x ∈ Finset.range img.cols, ∑ _y ∈ Finset.range area.height.toNat,
            (pixelLoop (lookupTable pow useFull) use2020
              ⟨area.height.toNat, img.cols, fun j x => img.px (area.y.toNat + j) x⟩
              img.cols area.height.toNat ⟨0, 0, 0⟩).maxCLL :=
          Finset.sum_le_sum (fun x hx => Finset.sum_le_sum (fun y hy2 =>
            p2 x y (Finset.mem_range.mp hx) (Finset.mem_range.mp hy2)))
      _ = ((img.cols : K) * (area.height.toNat : K)) *
            (pixelLoop (lookupTable pow useFull) use2020
              ⟨area.height.toNat, img.cols, fun j x => img.px (area.y.toNat + j) x⟩
              img.cols area.height.toNat ⟨0, 0, 0⟩).maxCLL := by
          simp only [Finset.sum_const, Finset.card_range, nsmul_eq_mul]
          ring
  have hF0 : (0 : K) ≤ 10000 * ((∑ x ∈ Finset.range img.cols,
      ∑ y ∈ Finset.range area.height.toNat,
        Lmax (lookupTable pow useFull) (img.px (area.y.toNat + y) x))
      / ((img.cols : K) * (area.height.toNat : K))) :=
    mul_nonneg (by norm_num) (div_nonneg hS0 (le_of_lt hden))
  refine ⟨_, hres, hF0, ?_, ?_, ?_⟩
  · apply mul_le_mul_of_nonneg_left _ (by norm_num)
    rw [div_le_iff₀ hden, mul_comm]
    exact hSle
  · intro e
    have e1 := congrArg HDRMetaDataResult.maxFALL e
    simp only at e1
    rw [e1] at hF0
    norm_num at hF0
  · intro e
    have e1 := congrArg HDRMetaDataResult.maxFALL e
    simp only at e1
    rw [e1] at hF0
    norm_num at hF0

/-- Witness of C18: rows 1 to 3 of the sample frame, full range. -/
theorem calculateMetadataForPath_mean_le_peak_witness :
    ∃ r : HDRMetaDataResult ℚ,
      calculateMetadataForPath squarePow (some letterboxFrame) true true ⟨0, 1, 0, 3⟩ = some r ∧
      0 ≤ r.maxFALL ∧ r.maxFALL ≤ r.maxCLL ∧
      r ≠ (⟨-1, -1⟩ : HDRMetaDataResult ℚ) ∧ r ≠ (⟨-2, -2⟩ : HDRMetaDataResult ℚ) :=
  calculateMetadataForPath_mean_le_peak squarePow letterboxFrame true true
    ⟨0, 1, 0, 3⟩ (by decide) (by decide) (by decide) (by decide)
    (tableAt_nonneg_of_pow_nonneg squarePow (fun a _ => mul_self_nonneg a) true)

end MeanPeakProofs

/-! ## Denominator of the PQ transform -/

theorem PQ10000_f_eq_quotient {K : Type} [LinearOrderedField K] (pow : K → K → K) (V : K) :
    PQ10000_f pow V
      = pow (max (pow V (1 / 78.84375) - 0.8359375) 0 / PQ10000_denominator pow V)
          (1 / 0.1593017578) := rfl

theorem rpow_headroom_lt (v : ℝ) (h0 : 0 ≤ v) (h1 : v ≤ 61439 / 56064) :
    v ^ ((1 : ℝ) / 78.84375) < 18.8515625 / 18.6875 := by
  have hd1 : (1 : ℝ) ≤ 18.8515625 / 18.6875 := by norm_num
  have hd0 : (0 : ℝ) ≤ 18.8515625 / 18.6875 := by norm_num
  have hpow : (61439 / 56064 : ℝ) < (18.8515625 / 18.6875 : ℝ) ^ (78.84375 : ℝ) := by
    have hb : (1 : ℝ) + (78 : ℕ) * (18.8515625 / 18.6875 - 1)
        ≤ (1 + (18.8515625 / 18.6875 - 1)) ^ (78 : ℕ) :=
      one_add_mul_le_pow (by norm_num) 78
    have h78 : (18.8515625 / 18.6875 : ℝ) ^ ((78 : ℕ) : ℝ)
        ≤ (18.8515625 / 18.6875 : ℝ) ^ (78.84375 : ℝ) :=
      Real.rpow_le_rpow_of_exponent_le hd1 (by norm_num)
    rw [Real.rpow_natCast] at h78
    have hs : (1 : ℝ) + (18.8515625 / 18.6875 - 1) = 18.8515625 / 18.6875 := by ring
    rw [hs] at hb
    have hc : (61439 / 56064 : ℝ) < 1 + (78 : ℕ) * (18.8515625 / 18.6875 - 1) := by norm_num
    linarith
  have hle : v ^ ((1 : ℝ) / 78.84375) ≤ (61439 / 56064 : ℝ) ^ ((1 : ℝ) / 78.84375) :=
    Real.rpow_le_rpow h0 h1 (by norm_num)
  have hlt : (61439 / 56064 : ℝ) ^ ((1 : ℝ) / 78.84375)
      < ((18.8515625 / 18.6875 : ℝ) ^ (78.84375 : ℝ)) ^ ((1 : ℝ) / 78.84375) :=
    Real.rpow_lt_rpow (by norm_num) hpow (by norm_num)
  rw [← Real.rpow_mul hd0] at hlt
  have he : (78.84375 : ℝ) * ((1 : ℝ) / 78.84375) = 1 := by norm_num
  rw [he, Real.rpow_one] at hlt
  exact lt_of_le_of_lt hle hlt

/-- C16: for every raw sample `i` in `[0, 65535]` under either range policy with
`v = (i - black) / range ≥ 0`, one has `v ≤ 61439/56064` and the denominator
`18.8515625 - 18.6875 * v^(1/78.84375)` of `PQ10000_f` is strictly positive (over
the reals, with the real power function for `pow`), so the division in `PQ10000_f`
is by a positive number during table construction. -/
theorem PQ10000_denominator_pos (useFull : Bool) (i : Nat) (hi : i ≤ 65535)
    (hv : 0 ≤ ((i : ℝ) - blackLevel useFull) / sampleRange useFull) :
    ((i : ℝ) - blackLevel useFull) / sampleRange useFull ≤ 61439 / 56064 ∧
    0 < PQ10000_denominator (fun x y : ℝ => x ^ y)
      (((i : ℝ) - blackLevel useFull) / sampleRange useFull) ∧
    PQ10000_denominator (fun x y : ℝ => x ^ y)
        (((i : ℝ) - blackLevel useFull) / sampleRange useFull) ≠ 0 := by
  have hi2 : (i : ℝ) ≤ 65535 := by exact_mod_cast hi
  have hle : ((i : ℝ) - blackLevel useFull) / sampleRange useFull ≤ 61439 / 56064 := by
    cases useFull with
    | true =>
      simp only [blackLevel, sampleRange, if_true]
      rw [div_le_iff₀ (by norm_num)]
      linarith
    | false =>
      simp only [blackLevel, sampleRange, Bool.false_eq_true, if_false]
      have hr : (60160 - 4096 : ℝ) = 56064 := by norm_num
      rw [hr]
      exact div_le_div_of_nonneg_right (by linarith) (by norm_num)
  have hlt := rpow_headroom_lt _ hv hle
  have hpos : 0 < PQ10000_denominator (fun x y : ℝ => x ^ y)
      (((i : ℝ) - blackLevel useFull) / sampleRange useFull) := by
    unfold PQ10000_denominator
    rw [lt_div_iff₀ (by norm_num)] at hlt
    simp only
    linarith
  exact ⟨hle, hpos, ne_of_gt hpos⟩

/-- Witness of C16: the last raw sample under the Legal range. -/
theorem PQ10000_denominator_pos_witness :
    (65535 : Nat) ≤ 65535 ∧
    0 ≤ (((65535 : Nat) : ℝ) - blackLevel false) / sampleRange false ∧
    (((65535 : Nat) : ℝ) - blackLevel false) / sampleRange false ≤ 61439 / 56064 ∧
    0 < PQ10000_denominator (fun x y : ℝ => x ^ y)
      ((((65535 : Nat) : ℝ) - blackLevel false) / sampleRange false) ∧
    PQ10000_denominator (fun x y : ℝ => x ^ y)
        ((((65535 : Nat) : ℝ) - blackLevel false) / sampleRange false) ≠ 0 :=
  ⟨le_refl _, by norm_num [blackLevel, sampleRange],
    PQ10000_denominator_pos false 65535 (le_refl _) (by norm_num [blackLevel, sampleRange])⟩

/-! ## Doubles with NaN: values below the black level -/

section NanArithmetic

variable {K : Type} [LinearOrderedField K]

theorem Dbl_nan_sub (a : Nan.Dbl K) : Nan.Dbl.nan - a = Nan.Dbl.nan := rfl

theorem Dbl_nan_div (a : Nan.Dbl K) : Nan.Dbl.nan / a = Nan.Dbl.nan := rfl

theorem Dbl_add_nan (a : Nan.Dbl K) : a + Nan.Dbl.nan = Nan.Dbl.nan := by
  cases a <;> rfl

theorem Dbl_mul_nan (a : Nan.Dbl K) : a * Nan.Dbl.nan = Nan.Dbl.nan := by
  cases a <;> rfl

theorem Dbl_num_sub (x y : K) : Nan.Dbl.num x - Nan.Dbl.num y = Nan.Dbl.num (x - y) := rfl

theorem Dbl_num_mul (x y : K) : Nan.Dbl.num x * Nan.Dbl.num y = Nan.Dbl.num (x * y) := rfl

theorem Dbl_num_div (x y : K) (hy : y ≠ 0) :
    Nan.Dbl.num x / Nan.Dbl.num y = Nan.Dbl.num (x / y) := by
  show Nan.Dbl.div (Nan.Dbl.num x) (Nan.Dbl.num y) = _
  simp [Nan.Dbl.div, hy]

theorem Dbl_lt_nan (a : Nan.Dbl K) : Nan.Dbl.lt a Nan.Dbl.nan = false := by
  cases a <;> rfl

end NanArithmetic

section NanProofs

variable {K : Type} [LinearOrderedField K] [FloorRing K]

theorem firstExponent_not_integer :
    ((1 : K) / 78.84375) ≠ 0 ∧ (0 : K) < 1 / 78.84375 ∧
      ((1 : K) / 78.84375) ≠ ((⌊((1 : K) / 78.84375)⌋ : Int) : K) := by
  have hfloor : ⌊((1 : K) / 78.84375)⌋ = 0 := by
    rw [Int.floor_eq_zero_iff]
    constructor <;> norm_num
  refine ⟨by norm_num, by norm_num, ?_⟩
  rw [hfloor]
  norm_num

theorem pow_negative_base (powPos : K → K → K) (v : K) (hv : v < 0) :
    Nan.pow powPos (Nan.Dbl.num v) (Nan.Dbl.num (1 / 78.84375)) = Nan.Dbl.nan := by
  obtain ⟨h0, _, hint⟩ := firstExponent_not_integer (K := K)
  simp only [Nan.pow]
  rw [if_neg h0, if_pos hv, if_neg hint]

theorem pow_zero_base (powPos : K → K → K) (y : K) (hy : 0 < y) :
    Nan.pow powPos (Nan.Dbl.num 0) (Nan.Dbl.num y) = Nan.Dbl.num 0 := by
  simp [Nan.pow, ne_of_gt hy, hy]

theorem PQ10000_f_of_negative (powPos : K → K → K) (v : K) (hv : v < 0) :
    Nan.PQ10000_f powPos (Nan.Dbl.num v) = Nan.Dbl.nan := by
  unfold Nan.PQ10000_f
  rw [pow_negative_base powPos v hv, Dbl_nan_sub]
  have hmax : Nan.stdMax (Nan.Dbl.nan : Nan.Dbl K) (Nan.Dbl.num 0) = Nan.Dbl.nan := rfl
  rw [hmax, Dbl_nan_div]
  have he : ((1 : K) / 0.1593017578) ≠ 0 := by norm_num
  simp only [Nan.pow]
  rw [if_neg he]

theorem PQ10000_f_of_zero (powPos : K → K → K) :
    Nan.PQ10000_f powPos (Nan.Dbl.num 0) = Nan.Dbl.num 0 := by
  obtain ⟨_, hpos, _⟩ := firstExponent_not_integer (K := K)
  unfold Nan.PQ10000_f
  rw [pow_zero_base powPos _ hpos, Dbl_num_sub, Dbl_num_mul, Dbl_num_sub]
  have hmax : Nan.stdMax (Nan.Dbl.num ((0 : K) - 0.8359375)) (Nan.Dbl.num 0) = Nan.Dbl.num 0 := by
    unfold Nan.stdMax Nan.Dbl.lt
    rw [if_pos (decide_eq_true (by norm_num))]
  rw [hmax, Dbl_num_div _ _ (by norm_num), zero_div]
  exact pow_zero_base powPos _ (by norm_num)

theorem getD_setD {α : Type} (t : Array α) (i j : Nat) (v d : α) :
    (t.setD i v).getD j d = if j = i ∧ i < t.size then v else t.getD j d := by
  by_cases hi : i < t.size
  · by_cases hj : j = i
    · subst hj
      have h := Array.getElem?_set_eq t ⟨j, hi⟩ v
      simp only [Array.getD_eq_get?, Array.setD, hi, dite_true, and_self, if_true]
      rw [h]
      rfl
    · have hji : i ≠ j := fun h => hj h.symm
      have h := Array.getElem?_set_ne t ⟨i, hi⟩ v hji
      simp only [Array.getD_eq_get?, Array.setD, hi, dite_true, hj, false_and, if_false]
      rw [h]
  · simp [Array.setD, hi]

theorem nan_lookupTableUpTo_succ (powPos : K → K → K) (u : Bool) (n : Nat) :
    Nan.lookupTableUpTo powPos u (n + 1)
      = Nan.lookupTableStep powPos u (Nan.lookupTableUpTo powPos u n) n := by
  simp [Nan.lookupTableUpTo, List.range_succ, List.foldl_append]

theorem nan_lookupTableUpTo_size (powPos : K → K → K) (u : Bool) (n : Nat) :
    (Nan.lookupTableUpTo powPos u n).size = 2 <<< 16 := by
  induction n with
  | zero => simp [Nan.lookupTableUpTo]
  | succ n ih => rw [nan_lookupTableUpTo_succ, Nan.lookupTableStep, Array.size_setD, ih]

theorem nan_tableAt_lookupTableUpTo (powPos : K → K → K) (u : Bool) (n j : Nat)
    (hn : n ≤ 2 <<< 16) :
    Nan.tableAt (Nan.lookupTableUpTo powPos u n) j =
      if j < n then Nan.PQ10000_f powPos
        ((Nan.Dbl.num (j : K) - Nan.Dbl.num (blackLevel u)) / Nan.Dbl.num (sampleRange u))
      else Nan.Dbl.num 0 := by
  induction n with
  | zero =>
    unfold Nan.tableAt Nan.lookupTableUpTo
    simp only [List.range_zero, List.foldl_nil, Nat.not_lt_zero, if_false]
    rw [Array.getD_eq_get?, Array.getElem?_mkArray]
    split_ifs <;> rfl
  | succ n ih =>
    have ih := ih (Nat.le_of_succ_le hn)
    unfold Nan.tableAt at ih ⊢
    rw [nan_lookupTableUpTo_succ, Nan.lookupTableStep, getD_setD, nan_lookupTableUpTo_size, ih]
    have hlt : n < 2 <<< 16 := hn
    by_cases hj : j = n
    · subst hj
      rw [if_pos ⟨rfl, hlt⟩, if_pos (Nat.lt_succ_self j)]
    · have h1 : ¬ (j = n ∧ n < 2 <<< 16) := fun h => hj h.1
      rw [if_neg h1]
      by_cases hjn : j < n
      · rw [if_pos hjn, if_pos (Nat.lt_succ_of_lt hjn)]
      · rw [if_neg hjn, if_neg (by omega)]

theorem nan_tableAt_below_black (powPos : K → K → K) (i : Nat) (hi : i < 4096) :
    Nan.tableAt (Nan.lookupTable powPos false) i = (Nan.Dbl.nan : Nan.Dbl K) := by
  unfold Nan.lookupTable
  rw [nan_tableAt_lookupTableUpTo powPos false pixelMax i (by decide)]
  have hpm : i < pixelMax := by
    have : pixelMax = 65536 := by decide
    omega
  rw [if_pos hpm]
  have hr : sampleRange (K := K) false ≠ 0 := by
    simp only [sampleRange, Bool.false_eq_true, if_false]
    norm_num
  have hneg : ((i : K) - blackLevel false) / sampleRange false < 0 := by
    have hik : (i : K) < 4096 := by exact_mod_cast hi
    simp only [blackLevel, sampleRange, Bool.false_eq_true, if_false]
    apply div_neg_of_neg_of_pos
    · linarith
    · norm_num
  rw [Dbl_num_sub, Dbl_num_div _ _ hr]
  exact PQ10000_f_of_negative powPos _ hneg

/-- C15: with the C library's `pow`, `PQ10000_f(v)` is NaN, not `0`, for every
`v < 0` (the power of a negative base with the exponent `1/78.84375` is NaN, and NaN
passes through `max`, the division and the outer power); only `v = 0` gives `0`.
Under the Legal range every raw sample below the black level 4096 therefore has the
table entry NaN. -/
theorem PQ10000_f_below_black_is_nan (powPos : K → K → K) (v : K) (hv : v < 0) :
    Nan.PQ10000_f powPos (Nan.Dbl.num v) = Nan.Dbl.nan ∧
    Nan.PQ10000_f powPos (Nan.Dbl.num v) ≠ Nan.Dbl.num 0 ∧
    Nan.PQ10000_f powPos (Nan.Dbl.num (0 : K)) = Nan.Dbl.num 0 ∧
    ∀ i, i < 4096 → Nan.tableAt (Nan.lookupTable powPos false) i = (Nan.Dbl.nan : Nan.Dbl K) := by
  refine ⟨PQ10000_f_of_negative powPos v hv, ?_, PQ10000_f_of_zero powPos,
    fun i hi => nan_tableAt_below_black powPos i hi⟩
  rw [PQ10000_f_of_negative powPos v hv]
  exact fun h => Nan.Dbl.noConfusion h

/-- Witness of C15: raw sample 0 under the Legal range, `v = -4096/56064`. -/
theorem PQ10000_f_below_black_is_nan_witness :
    (-4096 / 56064 : ℚ) < 0 ∧
    (Nan.PQ10000_f squarePow (Nan.Dbl.num (-4096 / 56064 : ℚ)) = Nan.Dbl.nan ∧
    Nan.PQ10000_f squarePow (Nan.Dbl.num (-4096 / 56064 : ℚ)) ≠ Nan.Dbl.num 0 ∧
    Nan.PQ10000_f squarePow (Nan.Dbl.num (0 : ℚ)) = Nan.Dbl.num 0 ∧
    ∀ i, i < 4096 →
      Nan.tableAt (Nan.lookupTable squarePow false) i = (Nan.Dbl.nan : Nan.Dbl ℚ)) :=
  ⟨by norm_num, PQ10000_f_below_black_is_nan squarePow (-4096 / 56064) (by norm_num)⟩

end NanProofs

/-! ## Doubles with NaN: a uniform frame below the black level -/

section NanLoopProofs

variable {K : Type} [LinearOrderedField K]

theorem nan_pixelStep_of_nan (t : Array (Nan.Dbl K)) (u : Bool) (img : Mat) (x y : Nat)
    (s : Acc (Nan.Dbl K))
    (h0 : Nan.tableAt t (img.px y x).val0 = Nan.Dbl.nan)
    (h1 : Nan.tableAt t (img.px y x).val1 = Nan.Dbl.nan)
    (h2 : Nan.tableAt t (img.px y x).val2 = Nan.Dbl.nan) :
    (Nan.pixelStep t u img x y s).maxFALL = Nan.Dbl.nan ∧
    (Nan.pixelStep t u img x y s).maxCLL = s.maxCLL := by
  simp only [Nan.pixelStep, h0, h1, h2]
  have hf : Nan.fmax (Nan.fmax (Nan.Dbl.nan : Nan.Dbl K) Nan.Dbl.nan) Nan.Dbl.nan
      = Nan.Dbl.nan := rfl
  rw [hf, Dbl_add_nan, Dbl_lt_nan]
  exact ⟨rfl, rfl⟩

theorem nan_columnLoop_succ (t : Array (Nan.Dbl K)) (u : Bool) (img : Mat) (n x : Nat)
    (s : Acc (Nan.Dbl K)) :
    Nan.columnLoop t u img (n + 1) x s
      = Nan.pixelStep t u img x n (Nan.columnLoop t u img n x s) := by
  simp [Nan.columnLoop, List.range_succ, List.foldl_append]

theorem nan_pixelLoop_succ (t : Array (Nan.Dbl K)) (u : Bool) (img : Mat) (k n : Nat)
    (s : Acc (Nan.Dbl K)) :
    Nan.pixelLoop t u img (k + 1) n s
      = Nan.columnLoop t u img n k (Nan.pixelLoop t u img k n s) := by
  simp [Nan.pixelLoop, List.range_succ, List.foldl_append]

theorem nan_columnLoop_of_nan (t : Array (Nan.Dbl K)) (u : Bool) (img : Mat) (n x : Nat)
    (s : Acc (Nan.Dbl K))
    (h : ∀ y x, Nan.tableAt t (img.px y x).val0 = Nan.Dbl.nan ∧
      Nan.tableAt t (img.px y x).val1 = Nan.Dbl.nan ∧
      Nan.tableAt t (img.px y x).val2 = Nan.Dbl.nan) :
    (Nan.columnLoop t u img n x s).maxCLL = s.maxCLL ∧
    (0 < n ∨ s.maxFALL = Nan.Dbl.nan → (Nan.columnLoop t u img n x s).maxFALL = Nan.Dbl.nan) := by
  induction n with
  | zero =>
    refine ⟨rfl, ?_⟩
    intro h0
    rcases h0 with h0 | h0
    · exact absurd h0 (Nat.lt_irrefl 0)
    · exact h0
  | succ n ih =>
    rw [nan_columnLoop_succ]
    obtain ⟨e1, e2⟩ := nan_pixelStep_of_nan t u img x n (Nan.columnLoop t u img n x s)
      (h n x).1 (h n x).2.1 (h n x).2.2
    exact ⟨e2.trans ih.1, fun _ => e1⟩

theorem nan_pixelLoop_of_nan (t : Array (Nan.Dbl K)) (u : Bool) (img : Mat) (k n : Nat)
    (s : Acc (Nan.Dbl K)) (hn : 0 < n)
    (h : ∀ y x, Nan.tableAt t (img.px y x).val0 = Nan.Dbl.nan ∧
      Nan.tableAt t (img.px y x).val1 = Nan.Dbl.nan ∧
      Nan.tableAt t (img.px y x).val2 = Nan.Dbl.nan) :
    (Nan.pixelLoop t u img k n s).maxCLL = s.maxCLL ∧
    (0 < k → (Nan.pixelLoop t u img k n s).maxFALL = Nan.Dbl.nan) := by
  induction k with
  | zero => exact ⟨rfl, fun h0 => absurd h0 (Nat.lt_irrefl 0)⟩
  | succ k ih =>
    rw [nan_pixelLoop_succ]
    obtain ⟨c1, c2⟩ := nan_columnLoop_of_nan t u img n k (Nan.pixelLoop t u img k n s) h
    exact ⟨c1.trans ih.1, fun _ => c2 (Or.inl hn)⟩

end NanLoopProofs

section NanUniformProofs

variable {K : Type} [LinearOrderedField K] [FloorRing K]

/-- C13: with the C library's `pow` the claim fails on a uniform frame below the
black level. For a frame whose pixels all carry the same three samples, each below
4096, under the Legal range and for every valid non-empty region,
`calculateMetadataForPath` returns `maxFALL = NaN` and `maxCLL = 0`: the three table
values are NaN, so `LMAX` is NaN, the running sum becomes NaN and `LMAX > maxCLL` is
never true. -/
theorem calculateMetadataForPath_uniform_below_black (powPos : K → K → K) (rows cols : Nat)
    (p : Vec3w) (use2020 : Bool) (area : HDRActiveArea)
    (h0 : p.val0 < 4096) (h1 : p.val1 < 4096) (h2 : p.val2 < 4096)
    (hw : 0 < cols) (hy : 0 ≤ area.y) (hh : 0 < area.height)
    (hb : area.y + area.height ≤ (rows : Int)) :
    Nan.calculateMetadataForPath powPos (some ⟨rows, cols, fun _ _ => p⟩) use2020 false area
      = some ⟨Nan.Dbl.nan, Nan.Dbl.num 0⟩ ∧
    (Nan.Dbl.nan : Nan.Dbl K) ≠ Nan.Dbl.num 0 := by
  refine ⟨?_, fun h => Nan.Dbl.noConfusion h⟩
  have hcrop := cropRect_of_region ⟨rows, cols, fun _ _ => p⟩ area hh hb
  have hroi := roi_of_region ⟨rows, cols, fun _ _ => p⟩ area.y area.height hy (le_of_lt hh) hb
  have hpos : 0 < area.height.toNat := by omega
  obtain ⟨e1, e2⟩ := nan_pixelLoop_of_nan (Nan.lookupTable powPos false) use2020
    ⟨area.height.toNat, cols, fun _ _ => p⟩ cols area.height.toNat
    ⟨Nan.Dbl.num 0, Nan.Dbl.num 0, Nan.Dbl.num 0⟩ hpos
    (fun _ _ => ⟨nan_tableAt_below_black powPos _ h0, nan_tableAt_below_black powPos _ h1,
      nan_tableAt_below_black powPos _ h2⟩)
  simp only [Nan.calculateMetadataForPath, hcrop, hroi, Int.toNat_ofNat]
  rw [e1, e2 hw, Dbl_nan_div, Dbl_mul_nan, Dbl_num_mul, mul_zero]

/-- Witness of C13: a 4 x 2 frame with the samples `(0, 100, 4000)` in every pixel. -/
theorem calculateMetadataForPath_uniform_below_black_witness :
    ((0 : Nat) < 4096 ∧ (100 : Nat) < 4096 ∧ (4000 : Nat) < 4096 ∧ 0 < 2 ∧
      (0 : Int) ≤ 1 ∧ (0 : Int) < 2 ∧ (1 : Int) + 2 ≤ ((4 : Nat) : Int)) ∧
    (Nan.calculateMetadataForPath squarePow (some ⟨4, 2, fun _ _ => ⟨0, 100, 4000⟩⟩) true false
        ⟨0, 1, 0, 2⟩
      = some ⟨Nan.Dbl.nan, Nan.Dbl.num 0⟩ ∧
    (Nan.Dbl.nan : Nan.Dbl ℚ) ≠ Nan.Dbl.num 0) :=
  ⟨by decide,
    calculateMetadataForPath_uniform_below_black squarePow 4 2 ⟨0, 100, 4000⟩ true ⟨0, 1, 0, 2⟩
      (by decide) (by decide) (by decide) (by decide) (by decide) (by decide) (by decide)⟩

end NanUniformProofs

section UniformExactProofs

variable {K : Type} [LinearOrderedField K]

theorem calculateMetadataForPath_uniform_exact (pow : K → K → K) (rows cols : Nat) (p : Vec3w)
    (use2020 useFull : Bool) (area : HDRActiveArea)
    (hw : 0 < cols) (hy : 0 ≤ area.y) (hh : 0 < area.height)
    (hb : area.y + area.height ≤ (rows : Int))
    (hp : 0 ≤ Lmax (lookupTable pow useFull) p) :
    calculateMetadataForPath pow (some ⟨rows, cols, fun _ _ => p⟩) use2020 useFull area
      = some ⟨10000 * Lmax (lookupTable pow useFull) p,
          10000 * Lmax (lookupTable pow useFull) p⟩ := by
  rw [calculateMetadataForPath_of_region pow ⟨rows, cols, fun _ _ => p⟩ use2020 useFull area
    hy hh hb]
  obtain ⟨p1, p2, p3⟩ := pixelLoop_maxCLL (lookupTable pow useFull) use2020
    ⟨area.height.toNat, cols, fun _ _ => p⟩ cols area.height.toNat ⟨0, 0, 0⟩
  simp only at p1 p2 p3
  have hpos : 0 < area.height.toNat := by omega
  have hcols : (cols : K) ≠ 0 := by exact_mod_cast (Nat.pos_iff_ne_zero.mp hw)
  have hrows : (area.height.toNat : K) ≠ 0 := by exact_mod_cast (Nat.pos_iff_ne_zero.mp hpos)
  have hM : (pixelLoop (lookupTable pow useFull) use2020
      ⟨area.height.toNat, cols, fun _ _ => p⟩ cols area.height.toNat ⟨0, 0, 0⟩).maxCLL
      = Lmax (lookupTable pow useFull) p := by
    rcases p3 with e | ⟨x, y, _, _, e⟩
    · have hle := p2 0 0 hw hpos
      rw [e] at hle
      rw [e]
      exact le_antisymm hp hle
    · exact e
  rw [hM]
  simp only [Finset.sum_const, Finset.card_range, nsmul_eq_mul]
  congr 2
  field_simp
  ring

end UniformExactProofs


/-! ## Region check in 32-bit `int` arithmetic -/

theorem int32_wrap_of_inRange (z : Int) (h1 : -2147483648 ≤ z) (h2 : z < 2147483648) :
    Int32.wrap z = z := by
  unfold Int32.wrap
  omega

theorem int32_cropRect_of_inRange (img : Mat) (area : HDRActiveArea)
    (h1 : -2147483648 ≤ area.height + area.y) (h2 : area.height + area.y < 2147483648) :
    Int32.cropRect img area = cropRect img area := by
  unfold Int32.cropRect cropRect
  rw [int32_wrap_of_inRange _ h1 h2]

theorem int32_cropRect_eq_none_iff (img : Mat) (area : HDRActiveArea)
    (h1 : -2147483648 ≤ area.height + area.y) (h2 : area.height + area.y < 2147483648) :
    Int32.cropRect img area = none ↔ area.y + area.height > (img.rows : Int) := by
  rw [int32_cropRect_of_inRange img area h1 h2]
  exact cropRect_eq_none_iff img area

theorem int32_calculateMetadataForPath_of_roi_none {K : Type} [LinearOrderedField K]
    (pow : K → K → K) (img : Mat) (u f : Bool) (area : HDRActiveArea) (r : Rect)
    (h1 : Int32.cropRect img area = some r) (h2 : Int32.roi img r = none) :
    Int32.calculateMetadataForPath pow (some img) u f area = none := by
  simp only [Int32.calculateMetadataForPath, h1, h2]

theorem int32_calculateMetadataForPath_of_rejected {K : Type} [LinearOrderedField K]
    (pow : K → K → K) (img : Mat) (u f : Bool) (area : HDRActiveArea)
    (h1 : Int32.cropRect img area = none) :
    Int32.calculateMetadataForPath pow (some img) u f area
      = some (⟨-2, -2⟩ : HDRMetaDataResult K) := by
  simp only [Int32.calculateMetadataForPath, h1, INVALID_ACTIVE_AREA]

/-- C2: the region check misses a sum that passes `INT_MAX`. On a frame of height
1800 the region `rowOffset = 2147483647`, `rowCount = 1` has
`rowOffset + rowCount > 1800`, but the `int` sum `area.height + area.y` wraps to
`-2147483648`, so the check does not reject the region: the rectangle
`Rect(0, 2147483647, xres, 1)` goes to the crop and `calculateMetadataForPath` does
not return the `INVALID_ACTIVE_AREA` sentinel. The region `(100, 2000)` of the claim
is rejected. -/
theorem int32_calculateMetadataForPath_overflow_not_rejected {K : Type} [LinearOrderedField K]
    (pow : K → K → K) (cols : Nat) (px : Nat → Nat → Vec3w) (use2020 useFull : Bool)
    (ax aw : Int) :
    (2147483647 : Int) + 1 > ((1800 : Nat) : Int) ∧
    Int32.wrap (1 + 2147483647) = -2147483648 ∧
    Int32.cropRect ⟨1800, cols, px⟩ ⟨ax, 2147483647, aw, 1⟩
      = some ⟨0, 2147483647, (cols : Int), 1⟩ ∧
    Int32.calculateMetadataForPath pow (some ⟨1800, cols, px⟩) use2020 useFull
        ⟨ax, 2147483647, aw, 1⟩ = none ∧
    Int32.calculateMetadataForPath pow (some ⟨1800, cols, px⟩) use2020 useFull
        ⟨ax, 2147483647, aw, 1⟩ ≠ some (⟨-2, -2⟩ : HDRMetaDataResult K) ∧
    Int32.calculateMetadataForPath pow (some ⟨1800, cols, px⟩) use2020 useFull
        ⟨ax, 100, aw, 2000⟩ = some (⟨-2, -2⟩ : HDRMetaDataResult K) := by
  have hw : Int32.wrap (1 + 2147483647) = -2147483648 := by
    unfold Int32.wrap
    omega
  have hc : Int32.cropRect ⟨1800, cols, px⟩ ⟨ax, 2147483647, aw, 1⟩
      = some ⟨0, 2147483647, (cols : Int), 1⟩ := by
    unfold Int32.cropRect
    simp only
    rw [hw, if_neg (by omega), if_neg (by omega)]
  have hm : Mat.roi ⟨1800, cols, px⟩ ⟨0, 2147483647, (cols : Int), 1⟩ = none := by
    unfold Mat.roi
    rw [if_neg]
    intro h
    have h6 := h.2.2.2.2.2
    simp only at h6
    omega
  have hr : Int32.roi ⟨1800, cols, px⟩ ⟨0, 2147483647, (cols : Int), 1⟩ = none := by
    unfold Int32.roi
    split_ifs
    · exact hm
    · rfl
  have hn : Int32.calculateMetadataForPath pow (some ⟨1800, cols, px⟩) use2020 useFull
      ⟨ax, 2147483647, aw, 1⟩ = none :=
    int32_calculateMetadataForPath_of_roi_none pow _ use2020 useFull _ _ hc hr
  refine ⟨by omega, hw, hc, hn, ?_, ?_⟩
  · rw [hn]
    exact fun h => Option.noConfusion h
  · have h2 : Int32.wrap (2000 + 100) = 2100 := by
      unfold Int32.wrap
      omega
    have hc2 : Int32.cropRect ⟨1800, cols, px⟩ ⟨ax, 100, aw, 2000⟩ = none := by
      unfold Int32.cropRect
      simp only
      rw [h2, if_pos (by omega)]
    exact int32_calculateMetadataForPath_of_rejected pow _ use2020 useFull _ hc2

/-! ## Batch loop with an analysis that can throw -/

theorem analyzeEach_of_returns {R : Type} (analyze : String → Option R) (g : String → R)
    (l : List String) (h : ∀ f ∈ l, analyze f = some (g f)) :
    Throwing.analyzeEach analyze l = some (l.map (fun f => (f, g f))) := by
  induction l with
  | nil => rfl
  | cons a t ih =>
    have ha := h a (List.mem_cons_self a t)
    have ht := ih (fun f hf => h f (List.mem_cons_of_mem a hf))
    simp only [Throwing.analyzeEach, ha, ht, List.map_cons]

theorem analyzeEach_of_throws {R : Type} (analyze : String → Option R) (l : List String)
    (f : String) (hf : f ∈ l) (h : analyze f = none) :
    Throwing.analyzeEach analyze l = none := by
  induction l with
  | nil => exact absurd hf (List.not_mem_nil f)
  | cons a t ih =>
    unfold Throwing.analyzeEach
    cases ha : analyze a with
    | none => rfl
    | some r =>
      have hft : f ∈ t := by
        rcases List.mem_cons.mp hf with e | e
        · rw [e, ha] at h
          exact Option.noConfusion h
        · exact e
      simp only [ih hft]

theorem throwing_sequentialLoop_of_returns {R : Type} (analyze : String → Option R)
    (g : String → R) (files : List String) (lo : Nat)
    (h : ∀ f ∈ files, analyze f = some (g f)) :
    Throwing.sequentialLoop analyze files lo
      = some ((files.drop lo).map (fun f => (f, g f))) :=
  analyzeEach_of_returns analyze g _ (fun f hf => h f (List.mem_of_mem_drop hf))

theorem throwing_groupResults_eq {R : Type} (analyze : String → Option R) (g : String → R)
    (files : List String) (w i : Nat) (hlen : i + w ≤ files.length)
    (h : ∀ f ∈ files, analyze f = some (g f)) :
    Throwing.groupResults analyze files (w : Int) (i : Int)
      = some (qSort sortHDRUserDataFilePath
          (((files.drop i).take w).map (fun f => (f, g f)))) := by
  unfold Throwing.groupResults
  simp only [Int.toNat_ofNat]
  rw [userDataList_eq files w i hlen,
    analyzeEach_of_returns analyze g _
      (fun f hf => h f (List.mem_of_mem_drop (List.mem_of_mem_take hf)))]

theorem throwing_groupLoop_eq {R : Type} (analyze : String → Option R) (g : String → R)
    (files : List String) (w : Nat) (hw : 1 ≤ w) (h : ∀ f ∈ files, analyze f = some (g f))
    (r : Nat) :
    ∀ (fuel i0 : Nat), r ≤ fuel → i0 + w * r ≤ files.length →
      Throwing.groupLoop analyze files (w : Int) ((i0 + w * r : Nat) : Int) fuel (i0 : Int)
        = Throwing.Run.finished ((List.range r).flatMap (fun j =>
            qSort sortHDRUserDataFilePath
              (((files.drop (i0 + w * j)).take w).map (fun f => (f, g f))))) := by
  induction r with
  | zero =>
    intro fuel i0 _ _
    cases fuel <;> simp [Throwing.groupLoop]
  | succ r ih =>
    intro fuel i0 hf hlen
    cases fuel with
    | zero => omega
    | succ fuel =>
      have hlt : (i0 : Int) < ((i0 + w * (r + 1) : Nat) : Int) := by
        have : 0 < w * (r + 1) := Nat.mul_pos hw (Nat.succ_pos r)
        omega
      have hidx : i0 + w * (r + 1) = (i0 + w) + w * r := by
        rw [Nat.mul_succ]
        omega
      have hrec := ih fuel (i0 + w) (Nat.le_of_succ_le_succ hf) (by omega)
      have hgr := throwing_groupResults_eq analyze g files w i0 (by
        have : w ≤ w * (r + 1) := Nat.le_mul_of_pos_right w (Nat.succ_pos r)
        omega) h
      unfold Throwing.groupLoop
      rw [if_pos hlt, hidx]
      have hcast : ((i0 : Int) + (w : Int)) = ((i0 + w : Nat) : Int) := by simp
      rw [hcast, hrec, hgr, List.range_succ_eq_map, List.flatMap_cons, List.flatMap_map]
      simp only [Nat.mul_zero, Nat.add_zero, Function.comp, Nat.succ_eq_add_one]
      congr 2
      apply congrArg
      funext j
      have : i0 + w + w * j = i0 + w * (j + 1) := by
        rw [Nat.mul_succ]
        omega
      rw [this]

theorem throwing_groupedPath_eq {R : Type} (analyze : String → Option R) (g : String → R)
    (files : List String) (w fuel : Nat) (hw : 1 ≤ w) (hf : files.length / w ≤ fuel)
    (h : ∀ f ∈ files, analyze f = some (g f)) :
    Throwing.groupedPath analyze files (w : Int) fuel
      = Throwing.Run.finished ((List.range (files.length / w)).flatMap (fun j =>
            qSort sortHDRUserDataFilePath
              (((files.drop (w * j)).take w).map (fun f => (f, g f))))
          ++ (files.drop (w * (files.length / w))).map (fun f => (f, g f))) := by
  have hmod : Int.tmod (files.length : Int) (w : Int) = ((files.length % w : Nat) : Int) := by
    rw [Int.tmod_eq_emod (Int.ofNat_nonneg _) (Int.ofNat_nonneg _)]
    simp
  have hmax : (files.length : Int) - ((files.length % w : Nat) : Int)
      = ((0 + w * (files.length / w) : Nat) : Int) := by
    have := Nat.div_add_mod files.length w
    omega
  have hle : 0 + w * (files.length / w) ≤ files.length := by
    have := Nat.div_mul_le_self files.length w
    rw [Nat.mul_comm] at this
    omega
  have hloop := throwing_groupLoop_eq analyze g files w hw h (files.length / w) fuel 0 hf hle
  unfold Throwing.groupedPath
  simp only [hmod, hmax]
  have h0 : ((0 : Nat) : Int) = 0 := rfl
  rw [h0] at hloop
  rw [hloop]
  simp only [Int.toNat_ofNat, Nat.zero_add,
    throwing_sequentialLoop_of_returns analyze g files _ h]

theorem throwing_batchLoop_eq {R : Type} (analyze : String → Option R) (g : String → R)
    (files : List String) (w fuel : Nat) (h : ∀ f ∈ files, analyze f = some (g f)) :
    Throwing.batchLoop analyze files (w : Int) fuel =
      if files.length < w then Throwing.Run.finished (files.map (fun f => (f, g f)))
      else Throwing.groupedPath analyze files (w : Int) fuel := by
  unfold Throwing.batchLoop
  simp [throwing_sequentialLoop_of_returns analyze g files 0 h]

theorem throwing_batchLoop_perm {R : Type} (analyze : String → Option R) (g : String → R)
    (files : List String) (w fuel : Nat) (hw : 1 ≤ w) (hfuel : files.length ≤ fuel)
    (h : ∀ f ∈ files, analyze f = some (g f)) :
    ∃ lines, Throwing.batchLoop analyze files (w : Int) fuel = Throwing.Run.finished lines ∧
      lines.Perm (files.map (fun f => (f, g f))) := by
  rw [throwing_batchLoop_eq analyze g files w fuel h]
  by_cases hlt : files.length < w
  · rw [if_pos hlt]
    exact ⟨_, rfl, List.Perm.refl _⟩
  · rw [if_neg hlt]
    have hq : files.length / w ≤ fuel := le_trans (Nat.div_le_self _ _) hfuel
    refine ⟨_, throwing_groupedPath_eq analyze g files w fuel hw hq h, ?_⟩
    have hp : ((List.range (files.length / w)).flatMap (fun j =>
          qSort sortHDRUserDataFilePath
            (((files.drop (w * j)).take w).map (fun f => (f, g f))))).Perm
        ((List.range (files.length / w)).flatMap (fun j =>
            ((files.drop (w * j)).take w).map (fun f => (f, g f)))) :=
      List.Perm.flatMap_left _ (fun j _ => qSort_perm _ _)
    rw [blocks_records] at hp
    have := hp.append (List.Perm.refl
      ((files.drop (w * (files.length / w))).map (fun f => (f, g f))))
    rwa [← List.map_append, List.take_append_drop] at this

theorem throwing_groupResults_first_throws {R : Type} (analyze : String → Option R)
    (first : String) (rest : List String) (w : Nat) (hw : 1 ≤ w) (h : analyze first = none) :
    Throwing.groupResults analyze (first :: rest) (w : Int) 0 = none := by
  obtain ⟨k, rfl⟩ : ∃ k, w = k + 1 := ⟨w - 1, by omega⟩
  unfold Throwing.groupResults
  simp only [Int.toNat_ofNat]
  rw [analyzeEach_of_throws analyze _ first ?_ h]
  rw [List.range_succ_eq_map, List.map_cons]
  simp

theorem throwing_batchLoop_first_throws {R : Type} (analyze : String → Option R)
    (first : String) (rest : List String) (w fuel : Nat) (hw : 1 ≤ w)
    (h : analyze first = none) :
    Throwing.batchLoop analyze (first :: rest) (w : Int) (fuel + 1) = Throwing.Run.aborted := by
  unfold Throwing.batchLoop
  simp only [Bool.false_eq_true, false_or]
  by_cases hlt : (((first :: rest).length : Nat) : Int) < (w : Int)
  · rw [if_pos hlt]
    have : Throwing.sequentialLoop analyze (first :: rest) 0 = none :=
      analyzeEach_of_throws analyze _ first (List.mem_cons_self _ _) h
    rw [this]
  · rw [if_neg hlt]
    have hmod : Int.tmod (((first :: rest).length : Nat) : Int) (w : Int)
        = (((first :: rest).length % w : Nat) : Int) := by
      rw [Int.tmod_eq_emod (Int.ofNat_nonneg _) (Int.ofNat_nonneg _)]
      simp
    have hpos : (0 : Int) < (((first :: rest).length : Nat) : Int)
        - (((first :: rest).length % w : Nat) : Int) := by
      have h1 : (first :: rest).length % w < w := Nat.mod_lt _ (by omega)
      omega
    unfold Throwing.groupedPath
    simp only [hmod]
    unfold Throwing.groupLoop
    rw [if_pos hpos, throwing_groupResults_first_throws analyze first rest w hw h]

/-- C6: a batch run can end without a line for any file. With the region
`yOffset = -1`, `yLength = -1` (the detector sentinel, which passes the check
`yLength == 0`) the analysis of a decoded file ends on the exception of the crop,
nothing catches it, and the run ends at the first file: no result line is written
for `a.tif` or `b.tif`, with four workers (sequential branch), with two (grouped
branch) and with one. -/
theorem throwing_mainBatch_aborts {K : Type} [LinearOrderedField K] (pow : K → K → K)
    (use2020 useFull : Bool) (fuel : Nat) :
    analyzeFile pow sampleFiles use2020 useFull (-1) (-1) "a.tif" = none ∧
    Throwing.mainBatch (analyzeFile pow sampleFiles use2020 useFull (-1) (-1))
        ["a.tif", "b.tif"] (-1) 4 (fuel + 1) = Throwing.Run.aborted ∧
    Throwing.mainBatch (analyzeFile pow sampleFiles use2020 useFull (-1) (-1))
        ["a.tif", "b.tif"] (-1) 2 (fuel + 1) = Throwing.Run.aborted ∧
    Throwing.mainBatch (analyzeFile pow sampleFiles use2020 useFull (-1) (-1))
        ["a.tif", "b.tif"] (-1) 1 (fuel + 1) = Throwing.Run.aborted ∧
    ∀ lines, Throwing.mainBatch (analyzeFile pow sampleFiles use2020 useFull (-1) (-1))
        ["a.tif", "b.tif"] (-1) 4 (fuel + 1) ≠ Throwing.Run.finished lines := by
  have ha : analyzeFile pow sampleFiles use2020 useFull (-1) (-1) "a.tif" = none := by
    simp [analyzeFile, sampleFiles, calculateMetadataForPath, cropRect, Mat.roi, fullFrame]
  have hb : ∀ w : Nat, 1 ≤ w →
      Throwing.mainBatch (analyzeFile pow sampleFiles use2020 useFull (-1) (-1))
        ["a.tif", "b.tif"] (-1) (w : Int) (fuel + 1) = Throwing.Run.aborted := by
    intro w hw
    have hw0 : ¬ ((w : Int) = 0) := by omega
    unfold Throwing.mainBatch Throwing.threadCheckedBatch
    rw [if_neg (by decide), if_neg hw0]
    exact throwing_batchLoop_first_throws _ "a.tif" ["b.tif"] w fuel hw ha
  refine ⟨ha, hb 4 (by decide), hb 2 (by decide), hb 1 (by decide), ?_⟩
  intro lines
  have h4 := hb 4 (by decide)
  have e : ((4 : Nat) : Int) = 4 := rfl
  rw [e] at h4
  rw [h4]
  exact fun h => Throwing.Run.noConfusion h

/-- C8: on a path-ordered list the grouped path does not give the sequence of
sequential processing. The four files `f1, f2, f3, f4` are in ascending
`QString::compare` order; with four workers (one full group, every analysis
returning) the batch loop writes `f3, f1, f2, f4`, the sequential loop
`f1, f2, f3, f4`. -/
theorem throwing_batchLoop_ordered_list_reordered :
    List.Pairwise (fun a b => QString_compare a b < 0) ["f1", "f2", "f3", "f4"] ∧
    Throwing.batchLoop sampleAnalyzeReturning ["f1", "f2", "f3", "f4"] 4 4
      = Throwing.Run.finished [("f3", ⟨100, 400⟩), ("f1", ⟨100, 400⟩), ("f2", ⟨100, 400⟩),
          ("f4", ⟨100, 400⟩)] ∧
    Throwing.sequentialLoop sampleAnalyzeReturning ["f1", "f2", "f3", "f4"] 0
      = some [("f1", ⟨100, 400⟩), ("f2", ⟨100, 400⟩), ("f3", ⟨100, 400⟩),
          ("f4", ⟨100, 400⟩)] ∧
    ∀ lines, Throwing.sequentialLoop sampleAnalyzeReturning ["f1", "f2", "f3", "f4"] 0
        = some lines →
      Throwing.batchLoop sampleAnalyzeReturning ["f1", "f2", "f3", "f4"] 4 4
        ≠ Throwing.Run.finished lines := by
  refine ⟨by decide, by decide, by decide, ?_⟩
  intro lines h
  have e : Throwing.sequentialLoop sampleAnalyzeReturning ["f1", "f2", "f3", "f4"] 0
      = some [("f1", ⟨100, 400⟩), ("f2", ⟨100, 400⟩), ("f3", ⟨100, 400⟩),
          ("f4", ⟨100, 400⟩)] := by decide
  rw [e] at h
  rw [← Option.some.inj h]
  decide

/-- C9, counterexample: with worker count `0` the run stops at the thread-count check
and writes no result line for the file, although its analysis returns. -/
theorem throwing_threadCheckedBatch_zero_workers :
    sampleAnalyzeReturning "a.tif" = some (sampleAnalyze "a.tif") ∧
    Throwing.threadCheckedBatch sampleAnalyzeReturning ["a.tif"] 0 1 = Throwing.Run.exited ∧
    Throwing.threadCheckedBatch sampleAnalyzeReturning ["a.tif"] 0 1
      ≠ Throwing.Run.finished [("a.tif", sampleAnalyze "a.tif")] := by
  decide

/-- C9, amended: for worker count `w = 1`, or with fewer files than `w`, and when
the analysis of every file of the list returns (a result or a sentinel), the batch
finishes and writes one result per file in input order, and the grouped path gives
the same lines on the same inputs; worker count `0` ends the run before any file is
processed. -/
theorem throwing_threadCheckedBatch_sequential {R : Type} (analyze : String → Option R)
    (g : String → R) (files : List String) (w : Int) (fuel : Nat)
    (hret : ∀ f ∈ files, analyze f = some (g f))
    (hcase : w = 1 ∨ (files.length : Int) < w) (hfuel : files.length ≤ fuel) :
    Throwing.threadCheckedBatch analyze files w fuel
      = Throwing.Run.finished (files.map (fun f => (f, g f))) ∧
    Throwing.groupedPath analyze files w fuel
      = Throwing.Run.finished (files.map (fun f => (f, g f))) ∧
    Throwing.threadCheckedBatch analyze files 0 fuel = Throwing.Run.exited := by
  have hwpos : 1 ≤ w := by
    rcases hcase with h | h
    · omega
    · have := Int.ofNat_nonneg files.length
      omega
  obtain ⟨n, rfl⟩ := Int.eq_ofNat_of_zero_le (le_trans (by decide) hwpos)
  have hn : 1 ≤ n := by omega
  have hq : files.length / n ≤ fuel := le_trans (Nat.div_le_self _ _) hfuel
  have hg : Throwing.groupedPath analyze files (n : Int) fuel
      = Throwing.Run.finished (files.map (fun f => (f, g f))) := by
    rw [throwing_groupedPath_eq analyze g files n fuel hn hq hret]
    apply congrArg
    apply grouped_of_unchanged
    intro j hj
    rcases hcase with h | h
    · apply qSort_short
      have : n = 1 := by omega
      rw [List.length_map, List.length_take, this]
      exact Nat.min_le_left _ _
    · have hlt : files.length < n := by omega
      rw [Nat.div_eq_of_lt hlt] at hj
      omega
  refine ⟨?_, hg, ?_⟩
  · unfold Throwing.threadCheckedBatch
    rw [if_neg (by omega), throwing_batchLoop_eq analyze g files n fuel hret]
    split_ifs
    · rfl
    · exact hg
  · simp [Throwing.threadCheckedBatch]

/-- Witness of C9 (amended): three files, one of them unreadable, with four workers. -/
theorem throwing_threadCheckedBatch_sequential_witness :
    (∀ f ∈ ["b", "missing.tif", "a"], sampleAnalyzeReturning f = some (sampleAnalyze f)) ∧
    ((4 : Int) = 1 ∨ ((["b", "missing.tif", "a"].length : Nat) : Int) < 4) ∧
    ["b", "missing.tif", "a"].length ≤ 3 ∧
    Throwing.threadCheckedBatch sampleAnalyzeReturning ["b", "missing.tif", "a"] 4 3
      = Throwing.Run.finished (["b", "missing.tif", "a"].map (fun f => (f, sampleAnalyze f))) :=
  ⟨fun _ _ => rfl, by decide, by decide,
    (throwing_threadCheckedBatch_sequential sampleAnalyzeReturning sampleAnalyze
      ["b", "missing.tif", "a"] 4 3 (fun _ _ => rfl) (by decide) (by decide)).1⟩

/-! ## Lookup table with the narrowing to `float` -/

section RoundingProofs

variable {K : Type} [LinearOrderedField K] [FloorRing K]

theorem int_log_two_eq (r : K) (e : Int) (h1 : (2 : K) ^ e ≤ r) (h2 : r < (2 : K) ^ (e + 1)) :
    Int.log 2 r = e := by
  have hr : 0 < r := lt_of_lt_of_le (zpow_pos (by norm_num) e) h1
  have h1' : ((2 : Nat) : K) ^ e ≤ r := by exact_mod_cast h1
  have h2' : r < ((2 : Nat) : K) ^ (e + 1) := by exact_mod_cast h2
  have a := (Int.zpow_le_iff_le_log (by norm_num : 1 < 2) hr).mp h1'
  have b := (Int.lt_zpow_iff_log_lt (by norm_num : 1 < 2) hr).mp h2'
  omega

theorem roundHalfEven_down (q : K) (n : Int) (h1 : (n : K) ≤ q) (h2 : q < (n : K) + 1 / 2) :
    roundHalfEven q = n := by
  have hf : ⌊q⌋ = n := by
    rw [Int.floor_eq_iff]
    constructor
    · exact h1
    · linarith
  unfold roundHalfEven
  simp only [hf]
  rw [if_pos (by linarith)]

theorem toFloat32_legal_zero :
    toFloat32 (((0 : K) - 4096) / 56064) = -(9805861 / 134217728) := by
  have hx : (((0 : K) - 4096) / 56064) ≠ 0 := by norm_num
  have hneg : (((0 : K) - 4096) / 56064) < 0 := by norm_num
  have habs : |(((0 : K) - 4096) / 56064)| = 4096 / 56064 := by
    rw [abs_of_neg hneg]
    norm_num
  have hlog : Int.log 2 ((4096 : K) / 56064) = -4 := by
    apply int_log_two_eq
    · norm_num
    · norm_num
  have hr : roundHalfEven ((4096 : K) / 56064 / (2 : K) ^ ((-27 : Int))) = 9805861 := by
    apply roundHalfEven_down
    · norm_num
    · norm_num
  unfold toFloat32
  rw [if_neg hx]
  simp only [habs, hlog]
  have hmax : max (-4 : Int) (-126) = -4 := by decide
  have he : ((-4 : Int) - 23) = -27 := by decide
  rw [hmax, he, hr, if_pos hneg]
  norm_num

theorem toFloat32_full_one :
    toFloat32 (((1 : K) - 0) / 65535) = 65537 / 4294967296 := by
  have hx : (((1 : K) - 0) / 65535) ≠ 0 := by norm_num
  have hpos : ¬ (((1 : K) - 0) / 65535) < 0 := by norm_num
  have habs : |(((1 : K) - 0) / 65535)| = 1 / 65535 := by
    rw [abs_of_pos (by norm_num)]
    norm_num
  have hlog : Int.log 2 ((1 : K) / 65535) = -16 := by
    apply int_log_two_eq
    · norm_num
    · norm_num
  have hr : roundHalfEven ((1 : K) / 65535 / (2 : K) ^ ((-39 : Int))) = 8388736 := by
    apply roundHalfEven_down
    · norm_num
    · norm_num
  unfold toFloat32
  rw [if_neg hx]
  simp only [habs, hlog]
  have hmax : max (-16 : Int) (-126) = -16 := by decide
  have he : ((-16 : Int) - 23) = -39 := by decide
  rw [hmax, he, hr, if_neg hpos]
  norm_num

theorem rounded_toFloat_nan : Rounded.toFloat (Nan.Dbl.nan : Nan.Dbl K) = Nan.Dbl.nan := rfl

theorem rounded_lookupTableUpTo_succ (powPos : K → K → K) (u : Bool) (n : Nat) :
    Rounded.lookupTableUpTo powPos u (n + 1)
      = Rounded.lookupTableStep powPos u (Rounded.lookupTableUpTo powPos u n) n := by
  simp [Rounded.lookupTableUpTo, List.range_succ, List.foldl_append]

theorem rounded_lookupTableUpTo_size (powPos : K → K → K) (u : Bool) (n : Nat) :
    (Rounded.lookupTableUpTo powPos u n).size = 2 <<< 16 := by
  induction n with
  | zero => simp [Rounded.lookupTableUpTo]
  | succ n ih =>
    rw [rounded_lookupTableUpTo_succ, Rounded.lookupTableStep, Array.size_setD, ih]

theorem rounded_tableAt_lookupTableUpTo (powPos : K → K → K) (u : Bool) (n j : Nat)
    (hn : n ≤ 2 <<< 16) :
    Rounded.tableAt (Rounded.lookupTableUpTo powPos u n) j =
      if j < n then Rounded.toFloat (Nan.PQ10000_f powPos (Rounded.toFloat
        ((Nan.Dbl.num (j : K) - Nan.Dbl.num (blackLevel u)) / Nan.Dbl.num (sampleRange u))))
      else Nan.Dbl.num 0 := by
  induction n with
  | zero =>
    unfold Rounded.tableAt Rounded.lookupTableUpTo
    simp only [List.range_zero, List.foldl_nil, Nat.not_lt_zero, if_false]
    rw [Array.getD_eq_get?, Array.getElem?_mkArray]
    split_ifs <;> rfl
  | succ n ih =>
    have ih := ih (Nat.le_of_succ_le hn)
    unfold Rounded.tableAt at ih ⊢
    rw [rounded_lookupTableUpTo_succ, Rounded.lookupTableStep, getD_setD,
      rounded_lookupTableUpTo_size, ih]
    have hlt : n < 2 <<< 16 := hn
    by_cases hj : j = n
    · subst hj
      rw [if_pos ⟨rfl, hlt⟩, if_pos (Nat.lt_succ_self j)]
    · have h1 : ¬ (j = n ∧ n < 2 <<< 16) := fun h => hj h.1
      rw [if_neg h1]
      by_cases hjn : j < n
      · rw [if_pos hjn, if_pos (Nat.lt_succ_of_lt hjn)]
      · rw [if_neg hjn, if_neg (by omega)]

theorem rounded_tableAt_legal_zero (powPos : K → K → K) :
    Rounded.tableAt (Rounded.lookupTable powPos false) 0 = (Nan.Dbl.nan : Nan.Dbl K) := by
  unfold Rounded.lookupTable
  rw [rounded_tableAt_lookupTableUpTo powPos false pixelMax 0 (by decide), if_pos (by decide)]
  have hr : sampleRange (K := K) false = 56064 := by
    simp only [sampleRange, Bool.false_eq_true, if_false]
    norm_num
  have hb : blackLevel (K := K) false = 4096 := rfl
  rw [hr, hb, Nat.cast_zero, Dbl_num_sub, Dbl_num_div _ _ (by norm_num)]
  have hq : Rounded.toFloat (Nan.Dbl.num (((0 : K) - 4096) / 56064))
      = Nan.Dbl.num (-(9805861 / 134217728)) := by
    show (if (2 : K) ^ (128 : Nat) ≤ |toFloat32 (((0 : K) - 4096) / 56064)| then Nan.Dbl.nan
      else Nan.Dbl.num (toFloat32 (((0 : K) - 4096) / 56064))) = _
    rw [toFloat32_legal_zero, abs_neg, abs_of_pos (by norm_num), if_neg (by norm_num)]
  rw [hq, PQ10000_f_of_negative powPos _ (by norm_num)]
  rfl

/-- C14, counterexample: the table entry is not `PQ10000_f((i - black) / range)`
exactly. Under the Full range at `i = 1` the argument handed to `PQ10000_f` is the
`float` quotient `65537/4294967296`, not `1/65535`; under the Legal range at `i = 0`
the entry is NaN, so the comparison `table[0] == PQ10000_f((0 - 4096) / 56064)` is
false. -/
theorem rounded_lookupTable_entry_not_exact :
    toFloat32 (((1 : ℚ) - 0) / 65535) = 65537 / 4294967296 ∧
    (65537 / 4294967296 : ℚ) ≠ (1 - 0) / 65535 ∧
    ∀ powPos : ℚ → ℚ → ℚ,
      Rounded.tableAt (Rounded.lookupTable powPos false) 0 = Nan.Dbl.nan ∧
      Nan.Dbl.eq (Rounded.tableAt (Rounded.lookupTable powPos false) 0)
        (Nan.PQ10000_f powPos
          ((Nan.Dbl.num (((0 : Nat) : ℚ)) - Nan.Dbl.num 4096) / Nan.Dbl.num 56064)) = false := by
  refine ⟨toFloat32_full_one, by norm_num, ?_⟩
  intro powPos
  refine ⟨rounded_tableAt_legal_zero powPos, ?_⟩
  rw [rounded_tableAt_legal_zero powPos]
  rfl

/-- C14, amended: for both range policies, `(black, range)` being `(0, 65535)` for
Full and `(4096, 56064)` for Legal, the table built in `calculateMetadataForPath`
holds at every raw sample `i` in `[0, 65535]` the value of `PQ10000_f` at the `float`
quotient `(i - black) / range`, narrowed to `float`; every such `i` lies below the
loop bound `pixelMax` and inside the allocated block, so it indexes an entry that
the construction loop has written. -/
theorem rounded_lookupTable_entry (powPos : K → K → K) (useFull : Bool) (i : Nat)
    (hi : i ≤ 65535) :
    Rounded.tableAt (Rounded.lookupTable powPos useFull) i
        = Rounded.toFloat (Nan.PQ10000_f powPos (Rounded.toFloat
            ((Nan.Dbl.num (i : K) - Nan.Dbl.num (if useFull then 0 else 4096))
              / Nan.Dbl.num (if useFull then 65535 else 56064)))) ∧
    i < pixelMax ∧ i < (Rounded.lookupTable powPos useFull).size ∧
    Rounded.lookupTableUpTo powPos useFull (i + 1)
      = (Rounded.lookupTableUpTo powPos useFull i).setD i
          (Rounded.toFloat (Nan.PQ10000_f powPos (Rounded.toFloat
            ((Nan.Dbl.num (i : K) - Nan.Dbl.num (if useFull then 0 else 4096))
              / Nan.Dbl.num (if useFull then 65535 else 56064))))) := by
  have hpm : i < pixelMax := by
    have : pixelMax = 65536 := by decide
    omega
  have hb : blackLevel useFull = (if useFull then (0 : K) else 4096) := rfl
  have hr : sampleRange useFull = (if useFull then (65535 : K) else 56064) := by
    unfold sampleRange
    split_ifs
    · rfl
    · norm_num
  refine ⟨?_, hpm, ?_, ?_⟩
  · unfold Rounded.lookupTable
    rw [rounded_tableAt_lookupTableUpTo powPos useFull pixelMax i (by decide), if_pos hpm,
      hb, hr]
  · unfold Rounded.lookupTable
    rw [rounded_lookupTableUpTo_size]
    have : pixelMax = 65536 := by decide
    have h2 : (2 <<< 16 : Nat) = 131072 := by decide
    omega
  · rw [rounded_lookupTableUpTo_succ, Rounded.lookupTableStep, hb, hr]

/-- Witness of C14 (amended): the last raw sample under the Legal range. -/
theorem rounded_lookupTable_entry_witness :
    (65535 : Nat) ≤ 65535 ∧
    Rounded.tableAt (Rounded.lookupTable squarePow false) 65535
        = Rounded.toFloat (Nan.PQ10000_f squarePow (Rounded.toFloat
            ((Nan.Dbl.num (((65535 : Nat) : ℚ)) - Nan.Dbl.num (if false then 0 else 4096))
              / Nan.Dbl.num (if false then 65535 else 56064)))) :=
  ⟨le_refl _, (rounded_lookupTable_entry squarePow false 65535 (le_refl _)).1⟩

end RoundingProofs

/-! ## Doubles with NaN: one pixel below the black level -/

section NanPixelProofs

variable {K : Type} [LinearOrderedField K]

end NanPixelProofs

section NanRegionProofs

variable {K : Type} [LinearOrderedField K] [FloorRing K]

end NanRegionProofs

end HDRStaticMetadata
